/-
  Verification of the EAMP real-time subscription core.

  This file gives a shallow embedding of the connection-lifecycle,
  subscription-bookkeeping and fan-out logic of the EAMP protocol
  repository, and proves (or refutes) the frozen specification claims
  about it.

  Server side (examples/servers/nodejs-express/src/services/websocket.ts):
  the `WebSocketManager` class with its `clients` map, `subscriptions`
  index, and the handlers `handleConnection`, `handleMessage`,
  `handleSubscription`, `handleUnsubscription`, `handleDisconnection`,
  `sendToClient`, `broadcastMetadataUpdate` and the heartbeat sweep.
  JavaScript `Map`s are embedded as association lists accessed only
  through `alookup` / `aset` / `adelete`; JavaScript `Set`s are embedded
  as duplicate-free lists with `setAdd` / `setRemove`.

  Client side (packages/javascript-sdk/src/transport/WebSocketTransport.ts
  and packages/javascript-sdk/src/client/EAMPClient.ts): the transport
  state machine (connect / close / reconnect-with-backoff / message
  queue flush / heartbeat timers) and the thin client layer on top of it.

  React registry (packages/react-sdk EAMPProvider): the refcounted
  subscribe / release bookkeeping keyed by resourceId, and the dispatch
  of `metadata_updated` events to registered callbacks.
-/
import Mathlib

namespace EAMP

/-- Wire messages exchanged over the WebSocket, as far as the claims need
to distinguish them.  `subMsg` / `unsubMsg` are the subscription messages
carrying a resourceId; `pingMsg` is the heartbeat ping; `otherMsg`
stands for any other JSON payload. -/
inductive WireMsg : Type
  | subMsg (rid : String)
  | unsubMsg (rid : String)
  | pingMsg
  | otherMsg (n : Nat)
deriving DecidableEq, Repr

/-- Number of occurrences of a given wire message in a trace. -/
def countMsg (m : WireMsg) (l : List WireMsg) : Nat :=
  (l.filter (fun x => x = m)).length

/-! ## Association-list maps (embedding of JavaScript `Map`) -/

/-- Lookup in an association list, mirroring `Map.get` /
`Map.has`. -/
def alookup {α : Type} : List (String × α) → String → Option α
  | [], _ => none
  | p :: ps, k => if p.1 = k then some p.2 else alookup ps k

/-- `Map.set`: replace the entry if the key is present, else append a new
entry (JavaScript `Map` preserves insertion order and appends new keys). -/
def aset {α : Type} : List (String × α) → String → α → List (String × α)
  | [], k, v => [(k, v)]
  | p :: ps, k, v => if p.1 = k then (k, v) :: ps else p :: aset ps k v

/-- `Map.delete`: remove the entry for a key. -/
def adelete {α : Type} (l : List (String × α)) (k : String) : List (String × α) :=
  l.filter (fun p => p.1 ≠ k)

/-! ## Duplicate-free lists (embedding of JavaScript `Set`) -/

/-- `Set.add`: append the element if it is not already present. -/
def setAdd (l : List String) (x : String) : List String :=
  if x ∈ l then l else l ++ [x]

/-- `Set.delete`: remove the element. -/
def setRemove (l : List String) (x : String) : List String :=
  l.filter (fun y => y ≠ x)

/-! ## Server model: `WebSocketManager` in services/websocket.ts -/

/-- `WebSocket.OPEN` constant of the `ws` library. -/
def wsOPEN : Nat := 1

/-- A `ClientConnection` record of the server, together with the two
facts about its socket that the handlers branch on: the socket's
`readyState` and whether `ws.send` currently throws (`sendFails`). -/
structure ClientConn : Type where
  id : String
  readyState : Nat
  sendFails : Bool
  subs : List String
  lastSeen : Nat
deriving DecidableEq, Repr

/-- The mutable state of `WebSocketManager`: the `clients` map
(clientId → ClientConnection, embedded as a list in insertion order) and
the `subscriptions` index (resourceId → Set of clientIds). -/
structure ServerState : Type where
  clients : List ClientConn
  index : List (String × List String)
deriving DecidableEq, Repr

/-- `this.clients.get(clientId)`. -/
def findClient : List ClientConn → String → Option ClientConn
  | [], _ => none
  | c :: cs, cid => if c.id = cid then some c else findClient cs cid

/-- Apply an update to the client record with the given id. -/
def updateClient (cs : List ClientConn) (cid : String) (f : ClientConn → ClientConn) :
    List ClientConn :=
  cs.map (fun c => if c.id = cid then f c else c)

/-- `this.clients.delete(clientId)`. -/
def removeClient (cs : List ClientConn) (cid : String) : List ClientConn :=
  cs.filter (fun c => c.id ≠ cid)

/-- Membership of a clientId in the index entry for a resourceId. -/
def cidInIndex (s : ServerState) (r cid : String) : Prop :=
  ∃ cids, alookup s.index r = some cids ∧ cid ∈ cids

instance (s : ServerState) (r cid : String) : Decidable (cidInIndex s r cid) := by
  unfold cidInIndex
  cases alookup s.index r with
  | none => exact .isFalse (by rintro ⟨a, h, ha⟩; cases h)
  | some cids =>
    by_cases h : cid ∈ cids
    · exact .isTrue ⟨cids, rfl, h⟩
    · exact .isFalse (by rintro ⟨a, ha, hm⟩; cases ha; exact h hm)

/-- Remove the clientId from `index[r]` and garbage-collect the entry if
it becomes empty (the shared cleanup step of `handleUnsubscription` and
`handleDisconnection`). -/
def indexRemove (idx : List (String × List String)) (r cid : String) :
    List (String × List String) :=
  match alookup idx r with
  | none => idx
  | some cids =>
      let cids' := setRemove cids cid
      if cids' = [] then adelete idx r else aset idx r cids'

/-- Add the clientId to `index[r]`, creating the entry if absent
(`handleSubscription`'s index update). -/
def indexAdd (idx : List (String × List String)) (r cid : String) :
    List (String × List String) :=
  match alookup idx r with
  | none => aset idx r [cid]
  | some cids => aset idx r (setAdd cids cid)

/-- The `for (const resourceId of client.subscriptions)` cleanup loop of
`handleDisconnection`. -/
def indexRemoveAll (idx : List (String × List String)) (rs : List String) (cid : String) :
    List (String × List String) :=
  match rs with
  | [] => idx
  | r :: rest => indexRemoveAll (indexRemove idx r cid) rest cid

/-- `handleDisconnection(clientId)`: if the client is registered, remove
it from every index entry it subscribed to (garbage-collecting emptied
entries) and delete it from the clients map.  Safe to call repeatedly:
a second call finds no client and is a no-op. -/
def handleDisconnection (s : ServerState) (cid : String) : ServerState :=
  match findClient s.clients cid with
  | none => s
  | some c =>
      { clients := removeClient s.clients cid
        index := indexRemoveAll s.index c.subs cid }

/-- `sendToClient(clientId, message)`: silently drop the message if the
client is unknown or its socket is not `OPEN`; if `ws.send` throws,
treat it as an implicit disconnect of that client.  Returns the new
state and whether the message was delivered. -/
def sendToClient (s : ServerState) (cid : String) : ServerState × Bool :=
  match findClient s.clients cid with
  | none => (s, false)
  | some c =>
      if c.readyState ≠ wsOPEN then (s, false)
      else if c.sendFails then (handleDisconnection s cid, false)
      else (s, true)

/-- `handleSubscription(clientId, message)`: add the resourceId to the
client's set and the clientId to the index entry (creating it if
absent), then send the `subscribed` confirmation. -/
def handleSubscription (s : ServerState) (cid r : String) : ServerState :=
  match findClient s.clients cid with
  | none => s
  | some _ =>
      let s' : ServerState :=
        { clients := updateClient s.clients cid (fun c => { c with subs := setAdd c.subs r })
          index := indexAdd s.index r cid }
      (sendToClient s' cid).1

/-- `handleUnsubscription(clientId, message)`: remove the resourceId from
the client's set and the clientId from the index entry, deleting the
entry if it becomes empty, then send the `unsubscribed` confirmation. -/
def handleUnsubscription (s : ServerState) (cid r : String) : ServerState :=
  match findClient s.clients cid with
  | none => s
  | some _ =>
      let s' : ServerState :=
        { clients := updateClient s.clients cid (fun c => { c with subs := setRemove c.subs r })
          index := indexRemove s.index r cid }
      (sendToClient s' cid).1

/-- Inbound raw WebSocket data, as `handleMessage` distinguishes it:
a JSON parse failure, or a parsed message dispatched on its `type`
field. -/
inductive RawData : Type
  | malformed
  | ping
  | subscribeReq (rid : String)
  | unsubscribeReq (rid : String)
  | unknown (t : String)
deriving DecidableEq, Repr

/-- `client.lastSeen = Date.now()` — the refresh `handleMessage` performs
before parsing or dispatching anything. -/
def touchLastSeen (s : ServerState) (cid : String) (now : Nat) : ServerState :=
  { s with clients := updateClient s.clients cid (fun c => { c with lastSeen := now }) }

/-- The `switch (message.type)` of `handleMessage`, together with the
`catch` branch for malformed JSON: `ping` replies `pong`; subscribe and
unsubscribe mutate the registry; anything else (including a parse
failure) gets an error reply and the connection stays registered. -/
def processParsed (s : ServerState) (cid : String) (raw : RawData) : ServerState :=
  match raw with
  | .ping => (sendToClient s cid).1
  | .subscribeReq r => handleSubscription s cid r
  | .unsubscribeReq r => handleUnsubscription s cid r
  | .unknown _ => (sendToClient s cid).1
  | .malformed => (sendToClient s cid).1

/-- `handleMessage(clientId, data)`: ignore messages from unregistered
clients; otherwise refresh `lastSeen` first and then process the
payload. -/
def handleMessage (s : ServerState) (cid : String) (raw : RawData) (now : Nat) : ServerState :=
  match findClient s.clients cid with
  | none => s
  | some _ => processParsed (touchLastSeen s cid now) cid raw

/-- `handleConnection`: reject (without registering) when the clients map
is at the configured limit; otherwise register a fresh connection with
an empty subscription set and `lastSeen = now`, then send the welcome
message. -/
def handleConnection (s : ServerState) (cid : String) (rs : Nat) (sf : Bool)
    (now maxConn : Nat) : ServerState :=
  if s.clients.length ≥ maxConn then s
  else
    let s' : ServerState := { s with clients := s.clients ++ [⟨cid, rs, sf, [], now⟩] }
    (sendToClient s' cid).1

/-- The `for (const clientId of subscribers)` loop of
`broadcastMetadataUpdate`, accumulating the ids that actually received
the event.  A send failure disconnects that client (inside
`sendToClient`) and the loop continues with the next subscriber. -/
def foldSend (s : ServerState) (pending acc : List String) : ServerState × List String :=
  match pending with
  | [] => (s, acc)
  | cid :: rest =>
      let r := sendToClient s cid
      foldSend r.1 rest (if r.2 then acc ++ [cid] else acc)

/-- `broadcastMetadataUpdate(update)`: a missing or empty index entry is
a no-op; otherwise attempt a send to every subscriber. -/
def broadcastMetadataUpdate (s : ServerState) (r : String) : ServerState × List String :=
  match alookup s.index r with
  | none => (s, [])
  | some subscribers =>
      if subscribers.isEmpty then (s, [])
      else foldSend s subscribers []

/-- The heartbeat sweep body: terminate (and run `handleDisconnection`
for) every client whose `lastSeen` is older than the timeout.  The loop
is embedded as a fold over a snapshot of (id, lastSeen) pairs; the pings
sent to healthy clients are control frames with no registry effect. -/
def sweepStale (s : ServerState) (now timeout : Nat) : ServerState :=
  (s.clients.map (fun c => (c.id, c.lastSeen))).foldl
    (fun st p => if now - p.2 > timeout then handleDisconnection st p.1 else st) s

/-- Events that drive the server state: a new connection (carrying the
socket facts and the configured connection limit), an inbound message, a
socket close, a publish of a change event, and a heartbeat sweep. -/
inductive SEvent : Type
  | conn (cid : String) (rs : Nat) (sf : Bool) (now maxConn : Nat)
  | msg (cid : String) (raw : RawData) (now : Nat)
  | close (cid : String)
  | pub (r : String)
  | sweepEv (now timeout : Nat)

/-- One transition of the server. -/
def serverStep (s : ServerState) (e : SEvent) : ServerState :=
  match e with
  | .conn cid rs sf now maxConn => handleConnection s cid rs sf now maxConn
  | .msg cid raw now => handleMessage s cid raw now
  | .close cid => handleDisconnection s cid
  | .pub r => (broadcastMetadataUpdate s r).1
  | .sweepEv now timeout => sweepStale s now timeout

/-- Side condition on an event: connection ids are fresh (they are
`uuidv4()` values in the source, never colliding with a registered
client). -/
def eventOk (s : ServerState) : SEvent → Prop
  | .conn cid _ _ _ _ => findClient s.clients cid = none
  | _ => True

/-- The reachable server states: the empty registry, closed under
steps whose events satisfy the freshness side condition. -/
inductive Reachable : ServerState → Prop
  | init : Reachable ⟨[], []⟩
  | step {s : ServerState} {e : SEvent} :
      Reachable s → eventOk s e → Reachable (serverStep s e)

/-- The value `indexAdd` stores at the touched key. -/
def addEntry (cid : String) : Option (List String) → List String
  | none => [cid]
  | some cids => setAdd cids cid

/-- One garbage-collecting removal on an optional index entry: the value
`indexRemove` leaves at the removed key. -/
def gcRemove (cid : String) : Option (List String) → Option (List String)
  | none => none
  | some cids => if setRemove cids cid = [] then none else some (setRemove cids cid)

/-- Whether the send to a registered client would currently throw. -/
def clientFails (s : ServerState) (cid : String) : Bool :=
  match findClient s.clients cid with
  | none => false
  | some c => c.sendFails

/-- Whether a client is registered with an `OPEN` socket. -/
def isRegisteredOpen (s : ServerState) (cid : String) : Bool :=
  match findClient s.clients cid with
  | none => false
  | some c => c.readyState = wsOPEN

/-- Whether a clientId is recorded as subscribed to a resourceId in the
client's own record. -/
def memSubsOf (s : ServerState) (cid r : String) : Bool :=
  match findClient s.clients cid with
  | none => false
  | some c => r ∈ c.subs

/-- Soundness of the index towards the registry: every clientId listed
in an index entry belongs to a registered client whose own subscription
set contains the entry's resourceId (a decidable strengthening of one
direction of the registry/index correspondence). -/
def IndexSound (s : ServerState) : Prop :=
  ∀ p ∈ s.index, ∀ cid ∈ p.2, memSubsOf s cid p.1 = true

/-- One direction of the registry/index correspondence, stated through
`alookup`: whoever the index lists under a resourceId is a registered
client recording that resourceId. -/
def IdxOk (s : ServerState) : Prop :=
  ∀ r cid, cidInIndex s r cid → memSubsOf s cid r = true

/-- The registry/index well-formedness maintained by every handler:
client ids are unique (`uuidv4`), index entries are duplicate-free and
never empty, and membership in the index coincides with membership in
the owning client's subscription set. -/
def Inv (s : ServerState) : Prop :=
  (s.clients.map (fun c => c.id)).Nodup
  ∧ (∀ r cids, alookup s.index r = some cids → cids ≠ [])
  ∧ (∀ r cids, alookup s.index r = some cids → cids.Nodup)
  ∧ (∀ r cid, cidInIndex s r cid ↔ ∃ c, findClient s.clients cid = some c ∧ r ∈ c.subs)

/-! ## Concrete server states used to instantiate the theorems -/

/-- A reachable state: one connection `"A"`, subscribed to `"r"`. -/
def sC2 : ServerState :=
  serverStep (serverStep ⟨[], []⟩ (SEvent.conn "A" wsOPEN false 0 100))
    (SEvent.msg "A" (RawData.subscribeReq "r") 5)

/-- Three OPEN connections subscribed to `"r"`; sends to `"A"` throw. -/
def sC3 : ServerState :=
  { clients :=
      [⟨"A", wsOPEN, true, ["r"], 0⟩, ⟨"B", wsOPEN, false, ["r"], 0⟩,
       ⟨"C", wsOPEN, false, ["r"], 0⟩]
    index := [("r", ["A", "B", "C"])] }

/-- Two connections subscribed to `"r"`: `"X"` with a CLOSED socket and
`"A"` with an OPEN one. -/
def sC10 : ServerState :=
  { clients := [⟨"X", 3, false, ["r"], 0⟩, ⟨"A", wsOPEN, false, ["r"], 0⟩]
    index := [("r", ["X", "A"])] }

/-! ## Client transport model: `WebSocketTransport` -/

/-- Configuration constants hard-wired in WebSocketTransport.ts:
`maxReconnectAttempts = 5`. -/
def maxReconnectAttempts : Nat := 5

/-- `reconnectDelay = 1000` (milliseconds). -/
def reconnectDelayBase : Nat := 1000

/-- The reconnect backoff ceiling, 30000 ms. -/
def reconnectDelayCap : Nat := 30000

/-- The state of a `WebSocketTransport` instance.  `ws` is the
`readyState` of the current socket (`none` when `this.ws` is
undefined); `sent` is the trace of messages written to a socket;
`closeCodes` is the trace of codes passed to `ws.close`; `delays` is
the trace of backoff delays waited by `reconnect`; `fatalErrors` counts
the `Failed to reconnect after N attempts` errors emitted. -/
structure Transport : Type where
  ws : Option Nat
  reconnectAttempts : Nat
  isReconnecting : Bool
  messageQueue : List WireMsg
  heartbeatOn : Bool
  pongTimerOn : Bool
  sent : List WireMsg
  closeCodes : List Nat
  delays : List Nat
  fatalErrors : Nat
deriving DecidableEq, Repr

/-- `isConnected()`: the current socket exists and its readyState is
`OPEN`. -/
def Transport.isConnected (t : Transport) : Bool :=
  t.ws = some wsOPEN

/-- The `while` loop of `flushMessageQueue`, split into the messages
written in order and the remaining queue: sends succeed (per the
oracle `ok`) until the first failing one, which is pushed back to the
front of the queue and aborts the flush. -/
def flushSplit (ok : WireMsg → Bool) : List WireMsg → List WireMsg × List WireMsg
  | [] => ([], [])
  | m :: rest =>
      if ok m then
        let r := flushSplit ok rest
        (m :: r.1, r.2)
      else ([], m :: rest)

/-- The `'open'` handler installed by `connect()`: reset the reconnect
attempt counter, clear `isReconnecting`, start the heartbeat timer and
flush the pending queue (then emit `connected`). -/
def Transport.onOpen (ok : WireMsg → Bool) (t : Transport) : Transport :=
  let r := flushSplit ok t.messageQueue
  { t with
    reconnectAttempts := 0
    isReconnecting := false
    heartbeatOn := true
    messageQueue := r.2
    sent := t.sent ++ r.1 }

/-- The `'close'` handler of `setupEventHandlers`: stop the heartbeat
timers, emit `disconnected`, and decide whether `reconnect()` is
invoked — only for a close code other than `1000`, when no
reconnection is in flight and the attempt budget is not exhausted.
Returns the updated state and that decision. -/
def Transport.onClose (t : Transport) (code : Nat) : Transport × Bool :=
  let t' : Transport := { t with heartbeatOn := false, pongTimerOn := false }
  if code ≠ 1000 ∧ t.isReconnecting = false ∧ t.reconnectAttempts < maxReconnectAttempts then
    (t', true)
  else (t', false)

/-- `disconnect()`: stop both heartbeat timers, close the socket with
the normal-closure code `1000` (when one exists) and drop the handle,
clear the pending queue and reset the reconnection state. -/
def Transport.disconnect (t : Transport) : Transport :=
  let t₁ : Transport := { t with heartbeatOn := false, pongTimerOn := false }
  let t₂ : Transport :=
    match t₁.ws with
    | some _ => { t₁ with closeCodes := t₁.closeCodes ++ [1000], ws := none }
    | none => t₁
  { t₂ with messageQueue := [], isReconnecting := false, reconnectAttempts := 0 }

/-- `reconnect()`: a no-op when already reconnecting or out of budget;
otherwise mark reconnecting, bump the attempt counter, wait
`min(reconnectDelay * 2^(attempts-1), 30000)` and try `connect()`.  The
oracle `okAt n` says whether the n-th attempt's `connect()` succeeds
(on success the `'open'` handler runs).  On failure, either emit the
fatal error (budget exhausted) or recurse — with `isReconnecting` still
`true`.  `fuel` bounds the recursion depth of the embedding; the source
recursion is the `this.reconnect()` call in the `catch` block. -/
def Transport.reconnect (okAt : Nat → Bool) (ok : WireMsg → Bool) :
    Nat → Transport → Transport
  | 0, t => t
  | fuel + 1, t =>
      if t.isReconnecting = true ∨ t.reconnectAttempts ≥ maxReconnectAttempts then t
      else
        let a := t.reconnectAttempts + 1
        let d := min (reconnectDelayBase * 2 ^ (a - 1)) reconnectDelayCap
        let t₁ : Transport :=
          { t with isReconnecting := true, reconnectAttempts := a, delays := t.delays ++ [d] }
        if okAt a then Transport.onOpen ok { t₁ with ws := some wsOPEN }
        else if a ≥ maxReconnectAttempts then
          { t₁ with isReconnecting := false, fatalErrors := t₁.fatalErrors + 1 }
        else Transport.reconnect okAt ok fuel t₁

/-- `send(message)` in the connected case: write to the socket
(`ok = false` embeds a throwing `ws.send`, which propagates a
`NetworkError` to the caller and leaves the transport state alone). -/
def Transport.sendConnected (t : Transport) (m : WireMsg) (ok : Bool) : Transport :=
  if ok then { t with sent := t.sent ++ [m] } else t

/-! ## Client layer: `EAMPClient` -/

/-- The `EAMPClient` state the claims touch: the `subscriptions` set of
resourceIds (insertion order) and the owned transport. -/
structure EClient : Type where
  subs : List String
  transport : Transport
deriving DecidableEq, Repr

/-- The `'connected'` handler `setupWebSocketHandlers` installs on the
transport: it only re-emits the event to the application.  No
resubscription of the resourceIds in `subs` is performed. -/
def clientOnConnected (c : EClient) : EClient :=
  c

/-- `EAMPClient.subscribe(resourceId)` in the connected case: a no-op if
already subscribed; otherwise send the subscribe message and record the
subscription (when the send throws, the error propagates before
`subscriptions.add` runs). -/
def clientSubscribe (c : EClient) (rid : String) (ok : Bool) : EClient :=
  if rid ∈ c.subs then c
  else if ok then
    { subs := c.subs ++ [rid]
      transport := Transport.sendConnected c.transport (WireMsg.subMsg rid) ok }
  else c

/-- An abnormal network drop followed by the automatic reconnection:
the socket's readyState falls to CLOSED, the `'close'` handler fires
with the given code, and if it decides to reconnect, `reconnect` runs
(here with every `connect()` attempt succeeding and every flushed send
succeeding), after which the client's `'connected'` handler runs. -/
def clientDropAndReconnect (c : EClient) (code fuel : Nat) : EClient :=
  let t₀ : Transport := { c.transport with ws := some 3 }
  let r := Transport.onClose t₀ code
  if r.2 then
    clientOnConnected
      { c with transport := Transport.reconnect (fun _ => true) (fun _ => true) fuel r.1 }
  else { c with transport := r.1 }

/-! ## Concrete client scenario for claim C1 (Scenario B of the spec) -/

/-- A freshly connected transport with empty queue and traces. -/
def t0open : Transport :=
  { ws := some wsOPEN, reconnectAttempts := 0, isReconnecting := false, messageQueue := []
    heartbeatOn := true, pongTimerOn := false, sent := [], closeCodes := [], delays := []
    fatalErrors := 0 }

/-- A connected client before any subscription. -/
def c1Start : EClient :=
  { subs := [], transport := t0open }

/-- The client after subscribing to three resourceIds over the open
connection. -/
def c1Subscribed : EClient :=
  clientSubscribe (clientSubscribe (clientSubscribe c1Start "r1" true) "r2" true) "r3" true

/-- The client after the connection drops with code 1006 and the
automatic reconnection succeeds, re-entering `OPEN`. -/
def c1Final : EClient :=
  clientDropAndReconnect c1Subscribed 1006 8

/-- The wire messages sent from the moment the connection dropped. -/
def c1SentAfterReconnect : List WireMsg :=
  c1Final.transport.sent.drop c1Subscribed.transport.sent.length

/-- The transport right after an abnormal network drop (socket CLOSED,
heartbeat stopped), from which `reconnect()` is entered. -/
def t6start : Transport :=
  { t0open with ws := some 3, heartbeatOn := false }

/-- A transport holding three queued messages, about to re-enter
`OPEN`. -/
def t8 : Transport :=
  { t0open with
      messageQueue := [WireMsg.subMsg "a", WireMsg.subMsg "b", WireMsg.subMsg "c"] }

/-- A send oracle whose only failing message is `subscribe "b"`. -/
def ok8 : WireMsg → Bool :=
  fun m => if m = WireMsg.subMsg "b" then false else true

/-! ## React registry model: `EAMPProvider` (refcounted interest) -/

/-- The provider's registry: `subscriptionsRef` maps a resourceId to the
set of registered callbacks (callbacks embedded as numeric ids),
`wsOpen` is whether `client.ws.readyState === WebSocket.OPEN`, and
`sent` is the trace of wire messages written to the socket. -/
structure PState : Type where
  subsMap : List (String × List Nat)
  wsOpen : Bool
  sent : List WireMsg
deriving DecidableEq, Repr

/-- `EAMPProvider.subscribe(resourceId, callback)`: on a missing entry,
create it (an empty `Set`) and send the `subscribe` message when the
socket is open; then add the callback to the entry's set. -/
def psub (p : PState) (rid : String) (cb : Nat) : PState :=
  match alookup p.subsMap rid with
  | none =>
      { subsMap := aset p.subsMap rid [cb]
        wsOpen := p.wsOpen
        sent := if p.wsOpen then p.sent ++ [WireMsg.subMsg rid] else p.sent }
  | some cbs =>
      { p with subsMap := aset p.subsMap rid (if cb ∈ cbs then cbs else cbs ++ [cb]) }

/-- The release closure returned by `subscribe`: delete the callback
from the captured set; when the set becomes (or already is) empty,
delete the registry entry and send the `unsubscribe` message when the
socket is open.  The `none` branch is the closure running after its
entry was already deleted: the captured set is the emptied orphan, so
`size === 0` still holds and the unsubscribe message is sent again. -/
def prel (p : PState) (rid : String) (cb : Nat) : PState :=
  match alookup p.subsMap rid with
  | some cbs =>
      let cbs' := cbs.filter (fun x => x ≠ cb)
      if cbs' = [] then
        { subsMap := adelete p.subsMap rid
          wsOpen := p.wsOpen
          sent := if p.wsOpen then p.sent ++ [WireMsg.unsubMsg rid] else p.sent }
      else { p with subsMap := aset p.subsMap rid cbs' }
  | none =>
      { p with sent := if p.wsOpen then p.sent ++ [WireMsg.unsubMsg rid] else p.sent }

/-- A sequence of `subscribe` calls for one resourceId. -/
def psubAll (p : PState) (rid : String) : List Nat → PState
  | [] => p
  | cb :: rest => psubAll (psub p rid cb) rid rest

/-- A sequence of release-closure invocations for one resourceId. -/
def prelAll (p : PState) (rid : String) : List Nat → PState
  | [] => p
  | cb :: rest => prelAll (prel p rid cb) rid rest

/-- The provider over an open socket with an empty registry. -/
def p0open : PState :=
  { subsMap := [], wsOpen := true, sent := [] }

/-! ## Dispatch model: the `metadata_updated` path (claim C5) -/

/-- The dispatch-side state: the shared read-through cache (resourceId →
metadata payload, payloads embedded as numbers), the trace of callback
invocations, each recording the cache value for the event's resourceId
observed at invocation time, and the count of exceptions the outer
handler caught. -/
structure DState : Type where
  cache : List (String × Nat)
  invoked : List (Nat × Option Nat)
  caught : Nat
deriving DecidableEq, Repr

/-- The `callbacks.forEach(callback => callback(metadata))` loop: each
callback runs (observing `obs`, the cache value for the resourceId);
a throwing callback (per `throws`) propagates its exception out of
`forEach` immediately, so the remaining callbacks never run.  Returns
the invocations performed and whether an exception escaped. -/
def runCbs (throws : Nat → Bool) (obs : Option Nat) : List Nat → List (Nat × Option Nat) × Bool
  | [] => ([], false)
  | cb :: rest =>
      if throws cb then ([(cb, obs)], true)
      else
        let r := runCbs throws obs rest
        ((cb, obs) :: r.1, r.2)

/-- Dispatch of one `metadata_updated` event carrying an optional full
payload to the callbacks registered for its resourceId: when a payload
is present the cache is written first; then the callback loop runs; an
escaping exception is caught by the surrounding `try`/`catch` (counted
in `caught`) instead of crashing the receiver. -/
def dispatchEvent (throws : Nat → Bool) (s : DState) (rid : String) (payload : Option Nat)
    (cbs : List Nat) : DState :=
  let cache' :=
    match payload with
    | some m => aset s.cache rid m
    | none => s.cache
  let r := runCbs throws (alookup cache' rid) cbs
  { cache := cache'
    invoked := s.invoked ++ r.1
    caught := s.caught + (if r.2 then 1 else 0) }

/-! ## Basic lemmas about the map and set embeddings -/

theorem countMsg_append (m : WireMsg) (a b : List WireMsg) :
    countMsg m (a ++ b) = countMsg m a + countMsg m b := by
  simp [countMsg, List.filter_append]

theorem countMsg_snoc (m x : WireMsg) (a : List WireMsg) :
    countMsg m (a ++ [x]) = countMsg m a + (if x = m then 1 else 0) := by
  rw [countMsg_append]
  unfold countMsg
  by_cases h : x = m <;> simp [h]

theorem alookup_aset_self {α : Type} (l : List (String × α)) (k : String) (v : α) :
    alookup (aset l k v) k = some v := by
  induction l with
  | nil => simp [aset, alookup]
  | cons p ps ih =>
      by_cases hp : p.1 = k
      · simp [aset, hp, alookup]
      · simp [aset, hp, alookup, ih]

theorem alookup_aset_ne {α : Type} (l : List (String × α)) {k k' : String} (v : α)
    (h : k' ≠ k) : alookup (aset l k v) k' = alookup l k' := by
  induction l with
  | nil => simp [aset, alookup, Ne.symm h]
  | cons p ps ih =>
      by_cases hp : p.1 = k
      · have hp' : ¬ p.1 = k' := by
          rw [hp]
          exact Ne.symm h
        simp [aset, hp, alookup, Ne.symm h, hp']
      · by_cases hk : p.1 = k'
        · simp only [aset, if_neg hp]
          simp [alookup, hk]
        · simp only [aset, if_neg hp]
          simp [alookup, hk, ih]

theorem adelete_cons {α : Type} (p : String × α) (ps : List (String × α)) (k : String) :
    adelete (p :: ps) k = if p.1 = k then adelete ps k else p :: adelete ps k := by
  by_cases hp : p.1 = k <;> simp [adelete, hp]

theorem alookup_adelete_self {α : Type} (l : List (String × α)) (k : String) :
    alookup (adelete l k) k = none := by
  induction l with
  | nil => rfl
  | cons p ps ih =>
      rw [adelete_cons]
      by_cases hp : p.1 = k
      · simpa [hp] using ih
      · rw [if_neg hp]
        simp [alookup, hp, ih]

theorem alookup_adelete_ne {α : Type} (l : List (String × α)) {k k' : String}
    (h : k' ≠ k) : alookup (adelete l k) k' = alookup l k' := by
  induction l with
  | nil => rfl
  | cons p ps ih =>
      rw [adelete_cons]
      by_cases hp : p.1 = k
      · have hp' : ¬ p.1 = k' := by
          rw [hp]
          exact Ne.symm h
        rw [if_pos hp]
        simp [alookup, hp', ih]
      · rw [if_neg hp]
        by_cases hk : p.1 = k'
        · simp [alookup, hk]
        · simp [alookup, hk, ih]

theorem mem_of_alookup {α : Type} {l : List (String × α)} {k : String} {v : α}
    (h : alookup l k = some v) : (k, v) ∈ l := by
  induction l with
  | nil => simp [alookup] at h
  | cons p ps ih =>
      obtain ⟨a, b⟩ := p
      by_cases hp : a = k
      · simp [alookup, hp] at h
        subst hp
        subst h
        exact List.mem_cons_self _ _
      · simp [alookup, hp] at h
        exact List.mem_cons_of_mem _ (ih h)

theorem mem_setAdd {l : List String} {x y : String} :
    x ∈ setAdd l y ↔ x ∈ l ∨ x = y := by
  unfold setAdd
  by_cases h : y ∈ l
  · simp [h]
    intro hx
    exact hx ▸ h
  · simp [h]

theorem mem_setRemove {l : List String} {x y : String} :
    x ∈ setRemove l y ↔ x ∈ l ∧ x ≠ y := by
  simp [setRemove, List.mem_filter]

theorem nodup_setAdd {l : List String} {x : String} (h : l.Nodup) :
    (setAdd l x).Nodup := by
  unfold setAdd
  by_cases hx : x ∈ l
  · simpa [hx] using h
  · simp only [hx, if_false]
    exact List.Nodup.append h (List.nodup_singleton x)
      (by simpa [List.disjoint_singleton] using hx)

theorem nodup_setRemove {l : List String} {x : String} (h : l.Nodup) :
    (setRemove l x).Nodup :=
  List.Nodup.filter _ h

theorem setRemove_cons (a : String) (as : List String) (x : String) :
    setRemove (a :: as) x = if a = x then setRemove as x else a :: setRemove as x := by
  by_cases h : a = x <;> simp [setRemove, h]

theorem setRemove_idem (l : List String) (x : String) :
    setRemove (setRemove l x) x = setRemove l x := by
  induction l with
  | nil => rfl
  | cons a as ih =>
      rw [setRemove_cons]
      by_cases h : a = x
      · simpa [h] using ih
      · rw [if_neg h, setRemove_cons, if_neg h, ih]

/-! ## Lemmas about the client registry operations -/

theorem findClient_cons (c : ClientConn) (cs : List ClientConn) (cid : String) :
    findClient (c :: cs) cid = if c.id = cid then some c else findClient cs cid :=
  rfl

theorem updateClient_cons (c : ClientConn) (cs : List ClientConn) (cid : String)
    (f : ClientConn → ClientConn) :
    updateClient (c :: cs) cid f = (if c.id = cid then f c else c) :: updateClient cs cid f :=
  rfl

theorem findClient_updateClient (cs : List ClientConn) (cid cid' : String)
    (f : ClientConn → ClientConn) (hf : ∀ c, (f c).id = c.id) :
    findClient (updateClient cs cid f) cid' =
      if cid' = cid then Option.map f (findClient cs cid) else findClient cs cid' := by
  induction cs with
  | nil => by_cases h : cid' = cid <;> simp [updateClient, findClient, h]
  | cons c cs ih =>
      rw [updateClient_cons, findClient_cons]
      by_cases hc : c.id = cid
      · by_cases h : cid' = cid
        · subst h
          simp [hc, hf, findClient_cons]
        · simp [hf, hc, Ne.symm h, findClient_cons, ih, h]
      · by_cases h : cid' = cid
        · subst h
          simp [hc, findClient_cons, ih]
        · by_cases hcc : c.id = cid'
          · simp [hc, hcc, findClient_cons, h]
          · simp [hc, hcc, findClient_cons, ih, h]

theorem removeClient_cons (c : ClientConn) (cs : List ClientConn) (cid : String) :
    removeClient (c :: cs) cid =
      if c.id = cid then removeClient cs cid else c :: removeClient cs cid := by
  by_cases h : c.id = cid <;> simp [removeClient, h]

theorem findClient_removeClient (cs : List ClientConn) (cid cid' : String) :
    findClient (removeClient cs cid) cid' =
      if cid' = cid then none else findClient cs cid' := by
  induction cs with
  | nil => by_cases h : cid' = cid <;> simp [removeClient, findClient, h]
  | cons c cs ih =>
      rw [removeClient_cons]
      by_cases hc : c.id = cid
      · rw [if_pos hc, ih]
        by_cases h : cid' = cid
        · simp [h]
        · have : ¬ c.id = cid' := by
            rw [hc]
            intro hx
            exact h hx.symm
          simp [findClient, h, this]
      · rw [if_neg hc]
        by_cases hcc : c.id = cid'
        · by_cases h : cid' = cid
          · exact absurd (hcc.trans h) hc
          · simp [findClient, hcc, h]
        · simp [findClient, hcc, ih]

theorem findClient_append_of_none {cs : List ClientConn} {cid : String}
    (h : findClient cs cid = none) (ds : List ClientConn) :
    findClient (cs ++ ds) cid = findClient ds cid := by
  induction cs with
  | nil => simp
  | cons c cs ih =>
      by_cases hc : c.id = cid
      · simp [findClient, hc] at h
      · simp [findClient, hc] at h ⊢
        exact ih h

theorem findClient_append_of_some {cs : List ClientConn} {cid : String} {c : ClientConn}
    (h : findClient cs cid = some c) (ds : List ClientConn) :
    findClient (cs ++ ds) cid = some c := by
  induction cs with
  | nil => simp [findClient] at h
  | cons c₀ cs ih =>
      by_cases hc : c₀.id = cid
      · simp [findClient, hc] at h ⊢
        exact h
      · simp [findClient, hc] at h ⊢
        exact ih h

theorem findClient_eq_none_iff (cs : List ClientConn) (cid : String) :
    findClient cs cid = none ↔ ∀ c ∈ cs, c.id ≠ cid := by
  induction cs with
  | nil => simp [findClient]
  | cons c cs ih =>
      by_cases hc : c.id = cid
      · simp [findClient, hc]
      · simp [findClient, hc, ih]

theorem map_id_updateClient (cs : List ClientConn) (cid : String)
    (f : ClientConn → ClientConn) (hf : ∀ c, (f c).id = c.id) :
    (updateClient cs cid f).map (fun c => c.id) = cs.map (fun c => c.id) := by
  induction cs with
  | nil => rfl
  | cons c cs ih =>
      by_cases hc : c.id = cid <;> simp [updateClient, hc, hf] at ih ⊢ <;>
        simpa [updateClient] using ih

/-! ## Characterization of the index operations through `alookup` -/

theorem alookup_indexRemove_self (idx : List (String × List String)) (r cid : String) :
    alookup (indexRemove idx r cid) r = gcRemove cid (alookup idx r) := by
  cases h : alookup idx r with
  | none => simp [indexRemove, gcRemove, h]
  | some cids =>
      by_cases he : setRemove cids cid = []
      · simp [indexRemove, gcRemove, h, he, alookup_adelete_self]
      · simp [indexRemove, gcRemove, h, he, alookup_aset_self]

theorem alookup_indexRemove_ne (idx : List (String × List String)) {r r' : String}
    (cid : String) (h : r' ≠ r) :
    alookup (indexRemove idx r cid) r' = alookup idx r' := by
  cases hh : alookup idx r with
  | none => simp [indexRemove, hh]
  | some cids =>
      by_cases he : setRemove cids cid = []
      · simp [indexRemove, hh, he, alookup_adelete_ne _ h]
      · simp [indexRemove, hh, he, alookup_aset_ne _ _ h]

theorem alookup_indexAdd_self (idx : List (String × List String)) (r cid : String) :
    alookup (indexAdd idx r cid) r = some (addEntry cid (alookup idx r)) := by
  cases h : alookup idx r with
  | none => simp [indexAdd, addEntry, h, alookup_aset_self]
  | some cids => simp [indexAdd, addEntry, h, alookup_aset_self]

theorem alookup_indexAdd_ne (idx : List (String × List String)) {r r' : String}
    (cid : String) (h : r' ≠ r) :
    alookup (indexAdd idx r cid) r' = alookup idx r' := by
  cases hh : alookup idx r with
  | none => simp [indexAdd, hh, alookup_aset_ne _ _ h]
  | some cids => simp [indexAdd, hh, alookup_aset_ne _ _ h]

theorem gcRemove_idem (cid : String) (o : Option (List String)) :
    gcRemove cid (gcRemove cid o) = gcRemove cid o := by
  cases o with
  | none => rfl
  | some cids =>
      by_cases he : setRemove cids cid = []
      · simp [gcRemove, he]
      · simp [gcRemove, he, setRemove_idem]

theorem alookup_indexRemoveAll_not_mem (idx : List (String × List String))
    {rs : List String} (cid : String) {r : String} (h : r ∉ rs) :
    alookup (indexRemoveAll idx rs cid) r = alookup idx r := by
  induction rs generalizing idx with
  | nil => rfl
  | cons r₀ rest ih =>
      have h1 : r ≠ r₀ := fun hh => h (hh ▸ List.mem_cons_self r₀ rest)
      have h2 : r ∉ rest := fun hh => h (List.mem_cons_of_mem _ hh)
      simp only [indexRemoveAll]
      rw [ih _ h2, alookup_indexRemove_ne _ _ h1]

theorem alookup_indexRemoveAll_mem (idx : List (String × List String))
    {rs : List String} (cid : String) {r : String} (h : r ∈ rs) :
    alookup (indexRemoveAll idx rs cid) r = gcRemove cid (alookup idx r) := by
  induction rs generalizing idx with
  | nil => simp at h
  | cons r₀ rest ih =>
      simp only [indexRemoveAll]
      by_cases hr : r = r₀
      · subst hr
        by_cases hrest : r ∈ rest
        · rw [ih _ hrest, alookup_indexRemove_self, gcRemove_idem]
        · rw [alookup_indexRemoveAll_not_mem _ _ hrest, alookup_indexRemove_self]
      · have hrest : r ∈ rest := by
          cases List.mem_cons.mp h with
          | inl hh => exact absurd hh hr
          | inr hh => exact hh
        rw [ih _ hrest, alookup_indexRemove_ne _ _ hr]

/-! ## Membership helpers for the index -/

theorem cidInIndex_some {s : ServerState} {r : String} {cids : List String}
    (h : alookup s.index r = some cids) (cid : String) :
    cidInIndex s r cid ↔ cid ∈ cids := by
  constructor
  · rintro ⟨cids₀, hl, hm⟩
    rw [h] at hl
    cases hl
    exact hm
  · intro hm
    exact ⟨cids, h, hm⟩

theorem cidInIndex_none {s : ServerState} {r : String}
    (h : alookup s.index r = none) (cid : String) : ¬ cidInIndex s r cid := by
  rintro ⟨cids₀, hl, hm⟩
  rw [h] at hl
  cases hl

theorem memSubsOf_iff (s : ServerState) (cid r : String) :
    memSubsOf s cid r = true ↔ ∃ c, findClient s.clients cid = some c ∧ r ∈ c.subs := by
  unfold memSubsOf
  cases h : findClient s.clients cid with
  | none => simp
  | some c => simp

/-! ## Effects of `handleDisconnection` -/

theorem findClient_handleDisconnection (s : ServerState) (j cid : String) :
    findClient (handleDisconnection s j).clients cid =
      if cid = j then none else findClient s.clients cid := by
  unfold handleDisconnection
  cases hf : findClient s.clients j with
  | none =>
      by_cases h : cid = j
      · subst h
        simp [hf]
      · simp [h]
  | some c =>
      simp only
      rw [findClient_removeClient]

theorem cidInIndex_handleDisconnection_mono {s : ServerState} {j r cid : String}
    (h : cidInIndex (handleDisconnection s j) r cid) : cidInIndex s r cid := by
  unfold handleDisconnection at h
  cases hf : findClient s.clients j with
  | none =>
      rw [hf] at h
      exact h
  | some c =>
      rw [hf] at h
      obtain ⟨cids, hl, hm⟩ := h
      by_cases hr : r ∈ c.subs
      · rw [alookup_indexRemoveAll_mem _ _ hr] at hl
        cases ho : alookup s.index r with
        | none => rw [ho] at hl; simp [gcRemove] at hl
        | some cids₀ =>
            rw [ho] at hl
            by_cases he : setRemove cids₀ j = []
            · simp [gcRemove, he] at hl
            · simp [gcRemove, he] at hl
              subst hl
              exact ⟨cids₀, ho, (mem_setRemove.mp hm).1⟩
      · rw [alookup_indexRemoveAll_not_mem _ _ hr] at hl
        exact ⟨cids, hl, hm⟩

theorem cidInIndex_handleDisconnection_ne {s : ServerState} {j cid : String} (r : String)
    (hne : cid ≠ j) : cidInIndex (handleDisconnection s j) r cid ↔ cidInIndex s r cid := by
  unfold handleDisconnection
  cases hf : findClient s.clients j with
  | none => exact Iff.rfl
  | some c =>
      simp only
      by_cases hr : r ∈ c.subs
      · constructor
        · rintro ⟨cids, hl, hm⟩
          rw [alookup_indexRemoveAll_mem _ _ hr] at hl
          cases ho : alookup s.index r with
          | none => rw [ho] at hl; simp [gcRemove] at hl
          | some cids₀ =>
              rw [ho] at hl
              by_cases he : setRemove cids₀ j = []
              · simp [gcRemove, he] at hl
              · simp [gcRemove, he] at hl
                subst hl
                exact ⟨cids₀, ho, (mem_setRemove.mp hm).1⟩
        · rintro ⟨cids, hl, hm⟩
          refine ⟨setRemove cids j, ?_, mem_setRemove.mpr ⟨hm, hne⟩⟩
          rw [alookup_indexRemoveAll_mem _ _ hr, hl]
          have hnonempty : setRemove cids j ≠ [] := by
            intro hnil
            have : cid ∈ setRemove cids j := mem_setRemove.mpr ⟨hm, hne⟩
            rw [hnil] at this
            simp at this
          simp [gcRemove, hnonempty]
      · constructor
        · rintro ⟨cids, hl, hm⟩
          rw [alookup_indexRemoveAll_not_mem _ _ hr] at hl
          exact ⟨cids, hl, hm⟩
        · rintro ⟨cids, hl, hm⟩
          refine ⟨cids, ?_, hm⟩
          rw [alookup_indexRemoveAll_not_mem _ _ hr]
          exact hl

theorem idxOk_of_indexSound {s : ServerState} (h : IndexSound s) : IdxOk s := by
  rintro r cid ⟨cids, hl, hm⟩
  exact h (r, cids) (mem_of_alookup hl) cid hm

theorem notInIndex_handleDisconnection_self {s : ServerState} (hok : IdxOk s)
    (j r : String) : ¬ cidInIndex (handleDisconnection s j) r j := by
  intro hin
  have hold : cidInIndex s r j := cidInIndex_handleDisconnection_mono hin
  have hmem := (memSubsOf_iff s j r).mp (hok r j hold)
  obtain ⟨c, hf, hr⟩ := hmem
  unfold handleDisconnection at hin
  rw [hf] at hin
  obtain ⟨cids, hl, hm⟩ := hin
  rw [alookup_indexRemoveAll_mem _ _ hr] at hl
  cases ho : alookup s.index r with
  | none => rw [ho] at hl; simp [gcRemove] at hl
  | some cids₀ =>
      rw [ho] at hl
      by_cases he : setRemove cids₀ j = []
      · simp [gcRemove, he] at hl
      · simp [gcRemove, he] at hl
        subst hl
        exact (mem_setRemove.mp hm).2 rfl

theorem idxOk_handleDisconnection {s : ServerState} (hok : IdxOk s) (j : String) :
    IdxOk (handleDisconnection s j) := by
  intro r cid hin
  by_cases hcj : cid = j
  · subst hcj
    exact absurd hin (notInIndex_handleDisconnection_self hok cid r)
  · have hold : cidInIndex s r cid := cidInIndex_handleDisconnection_mono hin
    have hm := (memSubsOf_iff s cid r).mp (hok r cid hold)
    obtain ⟨c, hf, hr⟩ := hm
    rw [memSubsOf_iff]
    refine ⟨c, ?_, hr⟩
    rw [findClient_handleDisconnection, if_neg hcj]
    exact hf

theorem idxOk_of_inv {s : ServerState} (h : Inv s) : IdxOk s := fun r cid hin =>
  (memSubsOf_iff s cid r).mpr ((h.2.2.2 r cid).mp hin)

theorem gcRemove_eq_some {cid : String} {o : Option (List String)} {cids : List String}
    (h : gcRemove cid o = some cids) :
    ∃ cids₀, o = some cids₀ ∧ cids = setRemove cids₀ cid ∧ cids ≠ [] := by
  cases o with
  | none => simp [gcRemove] at h
  | some cids₀ =>
      by_cases he : setRemove cids₀ cid = []
      · simp [gcRemove, he] at h
      · simp [gcRemove, he] at h
        refine ⟨cids₀, rfl, h.symm, ?_⟩
        rw [← h]
        exact he

theorem alookup_hd_index {s : ServerState} {j : String} {c : ClientConn}
    (hf : findClient s.clients j = some c) (r : String) :
    alookup (handleDisconnection s j).index r =
      if r ∈ c.subs then gcRemove j (alookup s.index r) else alookup s.index r := by
  unfold handleDisconnection
  rw [hf]
  by_cases hr : r ∈ c.subs
  · rw [if_pos hr]
    exact alookup_indexRemoveAll_mem _ _ hr
  · rw [if_neg hr]
    exact alookup_indexRemoveAll_not_mem _ _ hr

theorem Inv_handleDisconnection {s : ServerState} (h : Inv s) (j : String) :
    Inv (handleDisconnection s j) := by
  obtain ⟨h1, h2, h3, h4⟩ := h
  cases hf : findClient s.clients j with
  | none =>
      unfold handleDisconnection
      rw [hf]
      exact ⟨h1, h2, h3, h4⟩
  | some c =>
      refine ⟨?_, ?_, ?_, ?_⟩
      · unfold handleDisconnection
        rw [hf]
        exact h1.sublist ((List.filter_sublist _).map _)
      · intro r cids hl
        rw [alookup_hd_index hf] at hl
        by_cases hr : r ∈ c.subs
        · rw [if_pos hr] at hl
          obtain ⟨cids₀, _, _, hne⟩ := gcRemove_eq_some hl
          exact hne
        · rw [if_neg hr] at hl
          exact h2 r cids hl
      · intro r cids hl
        rw [alookup_hd_index hf] at hl
        by_cases hr : r ∈ c.subs
        · rw [if_pos hr] at hl
          obtain ⟨cids₀, ho, hc, _⟩ := gcRemove_eq_some hl
          rw [hc]
          exact nodup_setRemove (h3 r cids₀ ho)
        · rw [if_neg hr] at hl
          exact h3 r cids hl
      · intro r cid
        by_cases hcj : cid = j
        · subst hcj
          constructor
          · intro hin
            exact absurd hin
              (notInIndex_handleDisconnection_self (idxOk_of_inv ⟨h1, h2, h3, h4⟩) cid r)
          · rintro ⟨c', hc', _⟩
            rw [findClient_handleDisconnection, if_pos rfl] at hc'
            cases hc'
        · rw [cidInIndex_handleDisconnection_ne r hcj]
          rw [h4 r cid]
          constructor
          · rintro ⟨c', hc', hr⟩
            refine ⟨c', ?_, hr⟩
            rw [findClient_handleDisconnection, if_neg hcj]
            exact hc'
          · rintro ⟨c', hc', hr⟩
            rw [findClient_handleDisconnection, if_neg hcj] at hc'
            exact ⟨c', hc', hr⟩

theorem Inv_sendToClient {s : ServerState} (h : Inv s) (cid : String) :
    Inv (sendToClient s cid).1 := by
  unfold sendToClient
  cases hf : findClient s.clients cid with
  | none => exact h
  | some c =>
      simp only
      by_cases h1 : c.readyState ≠ wsOPEN
      · rw [if_pos h1]
        exact h
      · rw [if_neg h1]
        cases h2 : c.sendFails
        · simp only [Bool.false_eq_true, if_false]
          exact h
        · simp only [if_true]
          exact Inv_handleDisconnection h cid

theorem exists_client_iff {cs : List ClientConn} {cid : String} {c : ClientConn}
    (hf : findClient cs cid = some c) (P : ClientConn → Prop) :
    (∃ c', findClient cs cid = some c' ∧ P c') ↔ P c := by
  constructor
  · rintro ⟨c', hc', hp⟩
    rw [hf] at hc'
    cases hc'
    exact hp
  · intro hp
    exact ⟨c, hf, hp⟩

theorem mem_addEntry {cid x : String} {o : Option (List String)} :
    x ∈ addEntry cid o ↔ (∃ cids, o = some cids ∧ x ∈ cids) ∨ x = cid := by
  cases o with
  | none => simp [addEntry]
  | some cids => simp [addEntry, mem_setAdd]

theorem addEntry_ne_nil (cid : String) (o : Option (List String)) : addEntry cid o ≠ [] := by
  cases o with
  | none => simp [addEntry]
  | some cids =>
      simp only [addEntry, setAdd]
      by_cases hm : cid ∈ cids
      · rw [if_pos hm]
        intro hnil
        rw [hnil] at hm
        simp at hm
      · rw [if_neg hm]
        simp

theorem nodup_addEntry {cid : String} {o : Option (List String)}
    (h : ∀ cids, o = some cids → cids.Nodup) : (addEntry cid o).Nodup := by
  cases o with
  | none => simp [addEntry]
  | some cids => exact nodup_setAdd (h cids rfl)

theorem Inv_handleSubscription {s : ServerState} (h : Inv s) (cid r : String) :
    Inv (handleSubscription s cid r) := by
  unfold handleSubscription
  cases hf : findClient s.clients cid with
  | none => exact h
  | some c =>
      simp only
      apply Inv_sendToClient
      obtain ⟨h1, h2, h3, h4⟩ := h
      have hidpres : ∀ c₀ : ClientConn, ({ c₀ with subs := setAdd c₀.subs r } : ClientConn).id = c₀.id :=
        fun c₀ => rfl
      refine ⟨?_, ?_, ?_, ?_⟩
      · rw [map_id_updateClient _ _ _ hidpres]
        exact h1
      · intro r' cids hl
        by_cases hr : r' = r
        · subst hr
          rw [alookup_indexAdd_self] at hl
          cases hl
          exact addEntry_ne_nil _ _
        · rw [alookup_indexAdd_ne _ _ hr] at hl
          exact h2 _ _ hl
      · intro r' cids hl
        by_cases hr : r' = r
        · subst hr
          rw [alookup_indexAdd_self] at hl
          cases hl
          exact nodup_addEntry (fun cids₀ ho => h3 _ _ ho)
        · rw [alookup_indexAdd_ne _ _ hr] at hl
          exact h3 _ _ hl
      · intro r' cid'
        have hfind :
            findClient (updateClient s.clients cid
              (fun c₀ => { c₀ with subs := setAdd c₀.subs r })) cid' =
              if cid' = cid then
                Option.map (fun c₀ => { c₀ with subs := setAdd c₀.subs r })
                  (findClient s.clients cid)
              else findClient s.clients cid' :=
          findClient_updateClient _ _ _ _ hidpres
        by_cases hc : cid' = cid
        · subst hc
          rw [if_pos rfl, hf] at hfind
          by_cases hr : r' = r
          · subst hr
            constructor
            · intro _
              refine ⟨{ c with subs := setAdd c.subs r' }, ?_, ?_⟩
              · rw [hfind]
                rfl
              · exact mem_setAdd.mpr (Or.inr rfl)
            · intro _
              refine ⟨addEntry cid' (alookup s.index r'), ?_, ?_⟩
              · show alookup (indexAdd s.index r' cid') r' = _
                exact alookup_indexAdd_self _ _ _
              · exact mem_addEntry.mpr (Or.inr rfl)
          · have hl : alookup (indexAdd s.index r cid') r' = alookup s.index r' :=
              alookup_indexAdd_ne _ _ hr
            constructor
            · rintro ⟨cids, hcl, hm⟩
              rw [hl] at hcl
              have hold := (h4 r' cid').mp ⟨cids, hcl, hm⟩
              rw [exists_client_iff hf] at hold
              refine ⟨{ c with subs := setAdd c.subs r }, ?_, ?_⟩
              · rw [hfind]
                rfl
              · exact mem_setAdd.mpr (Or.inl hold)
            · rintro ⟨c', hc', hm⟩
              rw [hfind] at hc'
              cases hc'
              have hm' : r' ∈ c.subs := by
                rcases mem_setAdd.mp hm with hin | heq
                · exact hin
                · exact absurd heq hr
              have hold := (h4 r' cid').mpr ⟨c, hf, hm'⟩
              obtain ⟨cids, hcl, hmm⟩ := hold
              exact ⟨cids, by rw [hl]; exact hcl, hmm⟩
        · by_cases hr : r' = r
          · subst hr
            rw [if_neg hc] at hfind
            constructor
            · rintro ⟨cids, hcl, hm⟩
              have : alookup (indexAdd s.index r' cid) r' = some (addEntry cid (alookup s.index r')) :=
                alookup_indexAdd_self _ _ _
              rw [this] at hcl
              cases hcl
              rcases mem_addEntry.mp hm with ⟨cids₀, ho, hin⟩ | heq
              · have hold := (h4 r' cid').mp ⟨cids₀, ho, hin⟩
                obtain ⟨c', hc', hmm⟩ := hold
                exact ⟨c', by rw [hfind]; exact hc', hmm⟩
              · exact absurd heq hc
            · rintro ⟨c', hc', hm⟩
              rw [hfind] at hc'
              have hold := (h4 r' cid').mpr ⟨c', hc', hm⟩
              obtain ⟨cids, hcl, hmm⟩ := hold
              refine ⟨addEntry cid (alookup s.index r'), alookup_indexAdd_self _ _ _, ?_⟩
              exact mem_addEntry.mpr (Or.inl ⟨cids, hcl, hmm⟩)
          · rw [if_neg hc] at hfind
            have hl : alookup (indexAdd s.index r cid) r' = alookup s.index r' :=
              alookup_indexAdd_ne _ _ hr
            constructor
            · rintro ⟨cids, hcl, hm⟩
              rw [hl] at hcl
              have hold := (h4 r' cid').mp ⟨cids, hcl, hm⟩
              obtain ⟨c', hc', hmm⟩ := hold
              exact ⟨c', by rw [hfind]; exact hc', hmm⟩
            · rintro ⟨c', hc', hm⟩
              rw [hfind] at hc'
              have hold := (h4 r' cid').mpr ⟨c', hc', hm⟩
              obtain ⟨cids, hcl, hmm⟩ := hold
              exact ⟨cids, by rw [hl]; exact hcl, hmm⟩

theorem gcRemove_of_some {cid : String} {cids : List String} {o : Option (List String)}
    (ho : o = some cids) {x : String} (hx : x ∈ cids) (hne : x ≠ cid) :
    gcRemove cid o = some (setRemove cids cid) := by
  subst ho
  have : setRemove cids cid ≠ [] := by
    intro hnil
    have hmem : x ∈ setRemove cids cid := mem_setRemove.mpr ⟨hx, hne⟩
    rw [hnil] at hmem
    simp at hmem
  simp [gcRemove, this]

theorem Inv_handleUnsubscription {s : ServerState} (h : Inv s) (cid r : String) :
    Inv (handleUnsubscription s cid r) := by
  unfold handleUnsubscription
  cases hf : findClient s.clients cid with
  | none => exact h
  | some c =>
      simp only
      apply Inv_sendToClient
      obtain ⟨h1, h2, h3, h4⟩ := h
      have hidpres : ∀ c₀ : ClientConn,
          ({ c₀ with subs := setRemove c₀.subs r } : ClientConn).id = c₀.id :=
        fun c₀ => rfl
      refine ⟨?_, ?_, ?_, ?_⟩
      · rw [map_id_updateClient _ _ _ hidpres]
        exact h1
      · intro r' cids hl
        by_cases hr : r' = r
        · subst hr
          rw [alookup_indexRemove_self] at hl
          obtain ⟨cids₀, _, _, hne⟩ := gcRemove_eq_some hl
          exact hne
        · rw [alookup_indexRemove_ne _ _ hr] at hl
          exact h2 _ _ hl
      · intro r' cids hl
        by_cases hr : r' = r
        · subst hr
          rw [alookup_indexRemove_self] at hl
          obtain ⟨cids₀, ho, hc, _⟩ := gcRemove_eq_some hl
          rw [hc]
          exact nodup_setRemove (h3 _ _ ho)
        · rw [alookup_indexRemove_ne _ _ hr] at hl
          exact h3 _ _ hl
      · intro r' cid'
        have hfind :
            findClient (updateClient s.clients cid
              (fun c₀ => { c₀ with subs := setRemove c₀.subs r })) cid' =
              if cid' = cid then
                Option.map (fun c₀ => { c₀ with subs := setRemove c₀.subs r })
                  (findClient s.clients cid)
              else findClient s.clients cid' :=
          findClient_updateClient _ _ _ _ hidpres
        by_cases hc : cid' = cid
        · subst hc
          rw [if_pos rfl, hf] at hfind
          by_cases hr : r' = r
          · subst hr
            constructor
            · rintro ⟨cids, hcl, hm⟩
              rw [alookup_indexRemove_self] at hcl
              obtain ⟨cids₀, ho, hcc, _⟩ := gcRemove_eq_some hcl
              rw [hcc] at hm
              exact absurd (mem_setRemove.mp hm).2 (by simp)
            · rintro ⟨c', hc', hm⟩
              rw [hfind] at hc'
              cases hc'
              exact absurd (mem_setRemove.mp hm).2 (by simp)
          · have hl : alookup (indexRemove s.index r cid') r' = alookup s.index r' :=
              alookup_indexRemove_ne _ _ hr
            constructor
            · rintro ⟨cids, hcl, hm⟩
              rw [hl] at hcl
              have hold := (h4 r' cid').mp ⟨cids, hcl, hm⟩
              rw [exists_client_iff hf] at hold
              refine ⟨{ c with subs := setRemove c.subs r }, ?_, ?_⟩
              · rw [hfind]
                rfl
              · exact mem_setRemove.mpr ⟨hold, hr⟩
            · rintro ⟨c', hc', hm⟩
              rw [hfind] at hc'
              cases hc'
              have hm' : r' ∈ c.subs := (mem_setRemove.mp hm).1
              obtain ⟨cids, hcl, hmm⟩ := (h4 r' cid').mpr ⟨c, hf, hm'⟩
              exact ⟨cids, by rw [hl]; exact hcl, hmm⟩
        · by_cases hr : r' = r
          · subst hr
            rw [if_neg hc] at hfind
            constructor
            · rintro ⟨cids, hcl, hm⟩
              rw [alookup_indexRemove_self] at hcl
              obtain ⟨cids₀, ho, hcc, _⟩ := gcRemove_eq_some hcl
              rw [hcc] at hm
              have hin : cid' ∈ cids₀ := (mem_setRemove.mp hm).1
              obtain ⟨c', hc', hmm⟩ := (h4 r' cid').mp ⟨cids₀, ho, hin⟩
              exact ⟨c', by rw [hfind]; exact hc', hmm⟩
            · rintro ⟨c', hc', hm⟩
              rw [hfind] at hc'
              obtain ⟨cids, hcl, hmm⟩ := (h4 r' cid').mpr ⟨c', hc', hm⟩
              refine ⟨setRemove cids cid, ?_, mem_setRemove.mpr ⟨hmm, hc⟩⟩
              rw [alookup_indexRemove_self]
              exact gcRemove_of_some hcl hmm hc
          · rw [if_neg hc] at hfind
            have hl : alookup (indexRemove s.index r cid) r' = alookup s.index r' :=
              alookup_indexRemove_ne _ _ hr
            constructor
            · rintro ⟨cids, hcl, hm⟩
              rw [hl] at hcl
              obtain ⟨c', hc', hmm⟩ := (h4 r' cid').mp ⟨cids, hcl, hm⟩
              exact ⟨c', by rw [hfind]; exact hc', hmm⟩
            · rintro ⟨c', hc', hm⟩
              rw [hfind] at hc'
              obtain ⟨cids, hcl, hmm⟩ := (h4 r' cid').mpr ⟨c', hc', hm⟩
              exact ⟨cids, by rw [hl]; exact hcl, hmm⟩

theorem Inv_handleConnection {s : ServerState} (h : Inv s) {cid : String}
    (hfresh : findClient s.clients cid = none) (rs : Nat) (sf : Bool) (now maxConn : Nat) :
    Inv (handleConnection s cid rs sf now maxConn) := by
  unfold handleConnection
  by_cases hcap : s.clients.length ≥ maxConn
  · rw [if_pos hcap]
    exact h
  · rw [if_neg hcap]
    apply Inv_sendToClient
    obtain ⟨h1, h2, h3, h4⟩ := h
    refine ⟨?_, h2, h3, ?_⟩
    · rw [List.map_append]
      refine List.Nodup.append h1 (List.nodup_singleton _) ?_
      intro a ha hb
      simp only [List.map_cons, List.map_nil, List.mem_singleton] at hb
      subst hb
      obtain ⟨c₀, hc₀, hid⟩ := List.mem_map.mp ha
      exact ((findClient_eq_none_iff s.clients a).mp hfresh c₀ hc₀) hid
    · intro r cid'
      by_cases hcc : cid' = cid
      · subst hcc
        constructor
        · intro hin
          obtain ⟨c₀, hc₀, _⟩ := (h4 r cid').mp hin
          rw [hfresh] at hc₀
          cases hc₀
        · rintro ⟨c', hc', hm⟩
          rw [findClient_append_of_none hfresh] at hc'
          simp [findClient] at hc'
          rw [← hc'] at hm
          simp at hm
      · constructor
        · intro hin
          obtain ⟨c₀, hc₀, hm⟩ := (h4 r cid').mp hin
          exact ⟨c₀, findClient_append_of_some hc₀ _, hm⟩
        · rintro ⟨c', hc', hm⟩
          cases hold : findClient s.clients cid' with
          | some c₀ =>
              rw [findClient_append_of_some hold] at hc'
              cases hc'
              exact (h4 r cid').mpr ⟨_, hold, hm⟩
          | none =>
              rw [findClient_append_of_none hold] at hc'
              have : ¬ (⟨cid, rs, sf, [], now⟩ : ClientConn).id = cid' := fun hx => hcc hx.symm
              simp [findClient, this] at hc'

theorem corr_updateClient_subs_pres (cs : List ClientConn) (cid : String)
    (f : ClientConn → ClientConn) (hid : ∀ c, (f c).id = c.id)
    (hsubs : ∀ c, (f c).subs = c.subs) (cid' r' : String) :
    (∃ c', findClient (updateClient cs cid f) cid' = some c' ∧ r' ∈ c'.subs) ↔
      (∃ c', findClient cs cid' = some c' ∧ r' ∈ c'.subs) := by
  by_cases hc : cid' = cid
  · subst hc
    rw [findClient_updateClient _ _ _ _ hid, if_pos rfl]
    cases hfc : findClient cs cid' with
    | none => simp
    | some c => simp [hsubs c]
  · rw [findClient_updateClient _ _ _ _ hid, if_neg hc]

theorem Inv_touchLastSeen {s : ServerState} (h : Inv s) (cid : String) (now : Nat) :
    Inv (touchLastSeen s cid now) := by
  obtain ⟨h1, h2, h3, h4⟩ := h
  have hidpres : ∀ c₀ : ClientConn, ({ c₀ with lastSeen := now } : ClientConn).id = c₀.id :=
    fun _ => rfl
  have hsubspres : ∀ c₀ : ClientConn, ({ c₀ with lastSeen := now } : ClientConn).subs = c₀.subs :=
    fun _ => rfl
  refine ⟨?_, h2, h3, ?_⟩
  · show ((updateClient s.clients cid _).map _).Nodup
    rw [map_id_updateClient _ _ _ hidpres]
    exact h1
  · intro r cid'
    constructor
    · intro hin
      exact (corr_updateClient_subs_pres _ _ _ hidpres hsubspres _ _).mpr ((h4 r cid').mp hin)
    · intro hex
      exact (h4 r cid').mpr ((corr_updateClient_subs_pres _ _ _ hidpres hsubspres _ _).mp hex)

theorem Inv_processParsed {s : ServerState} (h : Inv s) (cid : String) (raw : RawData) :
    Inv (processParsed s cid raw) := by
  cases raw with
  | malformed => exact Inv_sendToClient h cid
  | ping => exact Inv_sendToClient h cid
  | unknown t => exact Inv_sendToClient h cid
  | subscribeReq r => exact Inv_handleSubscription h cid r
  | unsubscribeReq r => exact Inv_handleUnsubscription h cid r

theorem Inv_handleMessage {s : ServerState} (h : Inv s) (cid : String) (raw : RawData)
    (now : Nat) : Inv (handleMessage s cid raw now) := by
  unfold handleMessage
  cases hf : findClient s.clients cid with
  | none => exact h
  | some c => exact Inv_processParsed (Inv_touchLastSeen h cid now) cid raw

theorem Inv_foldSend (pending : List String) :
    ∀ (s : ServerState) (acc : List String), Inv s → Inv (foldSend s pending acc).1 := by
  induction pending with
  | nil => intro s acc h; exact h
  | cons cid rest ih =>
      intro s acc h
      simp only [foldSend]
      exact ih _ _ (Inv_sendToClient h cid)

theorem Inv_broadcast {s : ServerState} (h : Inv s) (r : String) :
    Inv (broadcastMetadataUpdate s r).1 := by
  unfold broadcastMetadataUpdate
  cases hl : alookup s.index r with
  | none => exact h
  | some subscribers =>
      by_cases he : subscribers.isEmpty
      · simp only [he, if_pos]
        exact h
      · simp only [he, if_false]
        exact Inv_foldSend subscribers s [] h

theorem Inv_foldDisc (l : List (String × Nat)) (now timeout : Nat) :
    ∀ s : ServerState, Inv s →
      Inv (l.foldl
        (fun st p => if now - p.2 > timeout then handleDisconnection st p.1 else st) s) := by
  induction l with
  | nil => intro s h; exact h
  | cons p rest ih =>
      intro s h
      simp only [List.foldl_cons]
      by_cases hp : now - p.2 > timeout
      · rw [if_pos hp]
        exact ih _ (Inv_handleDisconnection h p.1)
      · rw [if_neg hp]
        exact ih _ h

theorem Inv_sweepStale {s : ServerState} (h : Inv s) (now timeout : Nat) :
    Inv (sweepStale s now timeout) :=
  Inv_foldDisc _ now timeout s h

theorem Inv_init : Inv ⟨[], []⟩ := by
  refine ⟨List.nodup_nil, ?_, ?_, ?_⟩
  · intro r cids hl
    simp [alookup] at hl
  · intro r cids hl
    simp [alookup] at hl
  · intro r cid
    constructor
    · rintro ⟨cids, hl, _⟩
      simp [alookup] at hl
    · rintro ⟨c, hc, _⟩
      simp [findClient] at hc

theorem Inv_serverStep {s : ServerState} {e : SEvent} (h : Inv s) (hok : eventOk s e) :
    Inv (serverStep s e) := by
  cases e with
  | conn cid rs sf now maxConn => exact Inv_handleConnection h hok rs sf now maxConn
  | msg cid raw now => exact Inv_handleMessage h cid raw now
  | close cid => exact Inv_handleDisconnection h cid
  | pub r => exact Inv_broadcast h r
  | sweepEv now timeout => exact Inv_sweepStale h now timeout

theorem Inv_of_reachable {s : ServerState} (h : Reachable s) : Inv s := by
  induction h with
  | init => exact Inv_init
  | step hr hok ih => exact Inv_serverStep ih hok

/-! ## Claim C2 -/

/-- C2: at every reachable server state the subscription index equals the
union, over all connections in the client registry, of each connection's
subscription set (membership in an index entry holds exactly when a
registered client records that resourceId); no index entry is ever an
empty set (emptied entries are deleted); and disconnecting a connection
removes it from the registry and from every index entry in the same
step. -/
theorem c2_index_union_invariant (s : ServerState) (h : Reachable s) :
    (∀ r cid, cidInIndex s r cid ↔ ∃ c, findClient s.clients cid = some c ∧ r ∈ c.subs)
    ∧ (∀ r cids, alookup s.index r = some cids → cids ≠ [])
    ∧ (∀ cid, findClient (handleDisconnection s cid).clients cid = none
        ∧ ∀ r, ¬ cidInIndex (handleDisconnection s cid) r cid) := by
  obtain ⟨h1, h2, h3, h4⟩ := Inv_of_reachable h
  refine ⟨h4, h2, ?_⟩
  intro cid
  have hreach : Reachable (handleDisconnection s cid) :=
    @Reachable.step s (SEvent.close cid) h trivial
  have hd := Inv_of_reachable hreach
  constructor
  · rw [findClient_handleDisconnection, if_pos rfl]
  · intro r hin
    obtain ⟨c', hc', _⟩ := (hd.2.2.2 r cid).mp hin
    rw [findClient_handleDisconnection, if_pos rfl] at hc'
    cases hc'

/-- Witness for C2 at a concrete reachable state: one connection `"A"`
subscribed to `"r"`. -/
theorem c2_witness :
    (∀ r cid, cidInIndex sC2 r cid ↔ ∃ c, findClient sC2.clients cid = some c ∧ r ∈ c.subs)
    ∧ (∀ r cids, alookup sC2.index r = some cids → cids ≠ [])
    ∧ (∀ cid, findClient (handleDisconnection sC2 cid).clients cid = none
        ∧ ∀ r, ¬ cidInIndex (handleDisconnection sC2 cid) r cid) :=
  c2_index_union_invariant sC2
    (@Reachable.step _ (SEvent.msg "A" (RawData.subscribeReq "r") 5)
      (@Reachable.step _ (SEvent.conn "A" wsOPEN false 0 100) Reachable.init rfl) trivial)

/-! ## Case equations for `sendToClient` and congruence helpers -/

theorem sendToClient_of_absent {s : ServerState} {cid : String}
    (h : findClient s.clients cid = none) : sendToClient s cid = (s, false) := by
  unfold sendToClient
  rw [h]

theorem sendToClient_of_nonopen {s : ServerState} {cid : String} {c : ClientConn}
    (h : findClient s.clients cid = some c) (hrs : c.readyState ≠ wsOPEN) :
    sendToClient s cid = (s, false) := by
  unfold sendToClient
  rw [h]
  simp only [if_pos hrs]

theorem sendToClient_of_ok {s : ServerState} {cid : String} {c : ClientConn}
    (h : findClient s.clients cid = some c) (hrs : c.readyState = wsOPEN)
    (hsf : c.sendFails = false) : sendToClient s cid = (s, true) := by
  unfold sendToClient
  rw [h]
  simp [hrs, hsf]

theorem sendToClient_of_fail {s : ServerState} {cid : String} {c : ClientConn}
    (h : findClient s.clients cid = some c) (hrs : c.readyState = wsOPEN)
    (hsf : c.sendFails = true) : sendToClient s cid = (handleDisconnection s cid, false) := by
  unfold sendToClient
  rw [h]
  simp [hrs, hsf]

theorem clientFails_eq {s : ServerState} {cid : String} {c : ClientConn}
    (h : findClient s.clients cid = some c) : clientFails s cid = c.sendFails := by
  unfold clientFails
  rw [h]

theorem clientFails_congr {s₁ s₂ : ServerState} {cid : String}
    (h : findClient s₁.clients cid = findClient s₂.clients cid) :
    clientFails s₁ cid = clientFails s₂ cid := by
  unfold clientFails
  rw [h]

theorem isRegisteredOpen_congr {s₁ s₂ : ServerState} {cid : String}
    (h : findClient s₁.clients cid = findClient s₂.clients cid) :
    isRegisteredOpen s₁ cid = isRegisteredOpen s₂ cid := by
  unfold isRegisteredOpen
  rw [h]

theorem isRegisteredOpen_elim {s : ServerState} {cid : String}
    (h : isRegisteredOpen s cid = true) :
    ∃ c, findClient s.clients cid = some c ∧ c.readyState = wsOPEN := by
  unfold isRegisteredOpen at h
  cases hf : findClient s.clients cid with
  | none => rw [hf] at h; cases h
  | some c =>
      rw [hf] at h
      simp at h
      exact ⟨c, rfl, h⟩

theorem findClient_handleDisconnection_absent {s : ServerState} {j cid : String}
    (h : findClient s.clients cid = none) :
    findClient (handleDisconnection s j).clients cid = none := by
  rw [findClient_handleDisconnection]
  by_cases hcj : cid = j
  · rw [if_pos hcj]
  · rw [if_neg hcj]
    exact h

/-! ## Delivery behaviour of the broadcast fold (claim C3) -/

theorem foldSend_deliver (pending : List String) :
    ∀ (s : ServerState) (acc : List String),
      pending.Nodup →
      (∀ cid ∈ pending, isRegisteredOpen s cid = true) →
      IdxOk s →
      (foldSend s pending acc).2 = acc ++ pending.filter (fun cid => ! clientFails s cid)
      ∧ (∀ cid ∈ pending, clientFails s cid = true →
          findClient (foldSend s pending acc).1.clients cid = none
          ∧ ∀ r, ¬ cidInIndex (foldSend s pending acc).1 r cid)
      ∧ (∀ cid, clientFails s cid = false →
          findClient (foldSend s pending acc).1.clients cid = findClient s.clients cid)
      ∧ (∀ cid, findClient s.clients cid = none →
          findClient (foldSend s pending acc).1.clients cid = none)
      ∧ (∀ r cid, cidInIndex (foldSend s pending acc).1 r cid → cidInIndex s r cid)
      ∧ IdxOk (foldSend s pending acc).1 := by
  induction pending with
  | nil =>
      intro s acc _ _ hok
      exact ⟨by simp [foldSend], by simp, fun cid _ => rfl, fun cid h => h,
        fun r cid h => h, hok⟩
  | cons j rest ih =>
      intro s acc hnd hreg hok
      obtain ⟨cj, hfj, hrsj⟩ := isRegisteredOpen_elim (hreg j (List.mem_cons_self j rest))
      have hndr : rest.Nodup := hnd.of_cons
      have hjrest : j ∉ rest := (List.nodup_cons.mp hnd).1
      cases hsf : cj.sendFails with
      | false =>
          have hsend : sendToClient s j = (s, true) := sendToClient_of_ok hfj hrsj hsf
          have hfail : clientFails s j = false := by rw [clientFails_eq hfj, hsf]
          have hstep : foldSend s (j :: rest) acc = foldSend s rest (acc ++ [j]) := by
            simp [foldSend, hsend]
          rw [hstep]
          obtain ⟨p1, p2, p3, p4, p6, p7⟩ := ih s (acc ++ [j]) hndr
            (fun cid hm => hreg cid (List.mem_cons_of_mem _ hm)) hok
          refine ⟨?_, ?_, p3, p4, p6, p7⟩
          · rw [p1, List.filter_cons]
            simp [hfail]
          · intro cid hm hfcid
            cases List.mem_cons.mp hm with
            | inl heq =>
                subst heq
                rw [hfail] at hfcid
                cases hfcid
            | inr hmem => exact p2 cid hmem hfcid
      | true =>
          have hsend : sendToClient s j = (handleDisconnection s j, false) :=
            sendToClient_of_fail hfj hrsj hsf
          have hfail : clientFails s j = true := by rw [clientFails_eq hfj, hsf]
          have hstep : foldSend s (j :: rest) acc = foldSend (handleDisconnection s j) rest acc := by
            simp [foldSend, hsend]
          rw [hstep]
          have hpres : ∀ cid, cid ≠ j →
              findClient (handleDisconnection s j).clients cid = findClient s.clients cid := by
            intro cid hcj
            rw [findClient_handleDisconnection, if_neg hcj]
          obtain ⟨p1, p2, p3, p4, p6, p7⟩ := ih (handleDisconnection s j) acc hndr
            (fun cid hm => by
              rw [isRegisteredOpen_congr (hpres cid (fun hx => hjrest (hx ▸ hm)))]
              exact hreg cid (List.mem_cons_of_mem _ hm))
            (idxOk_handleDisconnection hok j)
          refine ⟨?_, ?_, ?_, ?_, ?_, p7⟩
          · rw [p1, List.filter_cons]
            simp only [hfail, Bool.not_true, if_false]
            congr 1
            exact List.filter_congr (fun x hx =>
              congrArg (fun b => !b)
                (clientFails_congr (hpres x (fun hxj => hjrest (hxj ▸ hx)))))
          · intro cid hm hfcid
            cases List.mem_cons.mp hm with
            | inl heq =>
                subst heq
                constructor
                · apply p4
                  rw [findClient_handleDisconnection, if_pos rfl]
                · intro r hin
                  exact notInIndex_handleDisconnection_self hok cid r (p6 r cid hin)
            | inr hmem =>
                have hne : cid ≠ j := fun hx => hjrest (hx ▸ hmem)
                apply p2 cid hmem
                rw [clientFails_congr (hpres cid hne), hfcid]
          · intro cid hfcid
            have hne : cid ≠ j := by
              intro hx
              rw [hx, hfail] at hfcid
              cases hfcid
            rw [p3 cid (by rw [clientFails_congr (hpres cid hne), hfcid]), hpres cid hne]
          · intro cid hnone
            have hne : cid ≠ j := by
              intro hx
              rw [hx, hfj] at hnone
              cases hnone
            apply p4
            rw [hpres cid hne, hnone]
          · intro r cid hin
            exact cidInIndex_handleDisconnection_mono (p6 r cid hin)

/-! ## Claim C3 -/

/-- C3: when a publish fans an update out to the subscribers of a
resourceId (all registered with OPEN sockets), exactly the subscribers
whose socket write does not throw receive the event — a throwing send
never aborts the loop; and each subscriber whose send throws is cleaned
up by the disconnect path (gone from the client registry and from every
index entry), while every other subscriber's registry entry is left
untouched. -/
theorem c3_send_failure_isolated (s : ServerState) (rid : String) (subsL : List String)
    (hent : alookup s.index rid = some subsL)
    (hne : subsL ≠ [])
    (hnd : subsL.Nodup)
    (hreg : ∀ cid ∈ subsL, isRegisteredOpen s cid = true)
    (hsound : IndexSound s) :
    (broadcastMetadataUpdate s rid).2 = subsL.filter (fun cid => ! clientFails s cid)
    ∧ (∀ cid ∈ subsL, clientFails s cid = true →
        findClient (broadcastMetadataUpdate s rid).1.clients cid = none
        ∧ ∀ r, ¬ cidInIndex (broadcastMetadataUpdate s rid).1 r cid)
    ∧ (∀ cid ∈ subsL, clientFails s cid = false →
        findClient (broadcastMetadataUpdate s rid).1.clients cid = findClient s.clients cid) := by
  have hbe : broadcastMetadataUpdate s rid = foldSend s subsL [] := by
    unfold broadcastMetadataUpdate
    rw [hent]
    cases subsL with
    | nil => exact absurd rfl hne
    | cons a l => simp [List.isEmpty]
  obtain ⟨p1, p2, p3, _, _, _⟩ :=
    foldSend_deliver subsL s [] hnd hreg (idxOk_of_indexSound hsound)
  rw [hbe]
  exact ⟨by simpa using p1, p2, fun cid _ hf => p3 cid hf⟩

/-- Witness for C3: three OPEN subscribers of `"r"`, the send to `"A"`
throws; `"B"` and `"C"` are exactly the ids delivered to, and `"A"`
alone is purged. -/
theorem c3_witness :
    (broadcastMetadataUpdate sC3 "r").2 =
        (["A", "B", "C"].filter (fun cid => ! clientFails sC3 cid))
    ∧ (∀ cid ∈ ["A", "B", "C"], clientFails sC3 cid = true →
        findClient (broadcastMetadataUpdate sC3 "r").1.clients cid = none
        ∧ ∀ r, ¬ cidInIndex (broadcastMetadataUpdate sC3 "r").1 r cid)
    ∧ (∀ cid ∈ ["A", "B", "C"], clientFails sC3 cid = false →
        findClient (broadcastMetadataUpdate sC3 "r").1.clients cid = findClient sC3.clients cid) :=
  c3_send_failure_isolated sC3 "r" ["A", "B", "C"] (by decide) (by decide) (by decide)
    (by decide) (by unfold IndexSound; decide)

/-! ## Claim C9 -/

/-- C9: `handleMessage` from a registered connection factors through the
`lastSeen := now` refresh for EVERY payload — malformed JSON and
unrecognized types included — and the refreshed registry indeed records
`lastSeen = now` for that connection before any processing happens. -/
theorem c9_lastseen_refreshed_for_all_messages (s : ServerState) (cid : String)
    (c : ClientConn) (h : findClient s.clients cid = some c) (raw : RawData) (now : Nat) :
    handleMessage s cid raw now = processParsed (touchLastSeen s cid now) cid raw
    ∧ findClient (touchLastSeen s cid now).clients cid = some { c with lastSeen := now } := by
  constructor
  · unfold handleMessage
    rw [h]
  · show findClient (updateClient s.clients cid (fun c => { c with lastSeen := now })) cid = _
    rw [findClient_updateClient s.clients cid cid (fun c => { c with lastSeen := now })
      (fun _ => rfl), if_pos rfl, h]
    rfl

/-- Witness for C9: a malformed message from `"A"` still counts as
liveness. -/
theorem c9_witness :
    handleMessage sC2 "A" RawData.malformed 99 =
      processParsed (touchLastSeen sC2 "A" 99) "A" RawData.malformed
    ∧ findClient (touchLastSeen sC2 "A" 99).clients "A" =
        some ⟨"A", wsOPEN, false, ["r"], 99⟩ :=
  c9_lastseen_refreshed_for_all_messages sC2 "A" ⟨"A", wsOPEN, false, ["r"], 5⟩
    (by decide) RawData.malformed 99

/-! ## Claim C10 -/

theorem foldSend_skip_nonopen {cid : String} {c : ClientConn} (hrs : c.readyState ≠ wsOPEN)
    (pending : List String) :
    ∀ (s : ServerState) (acc : List String),
      findClient s.clients cid = some c → cid ∉ acc →
      cid ∉ (foldSend s pending acc).2
      ∧ findClient (foldSend s pending acc).1.clients cid = some c
      ∧ ∀ r, (cidInIndex (foldSend s pending acc).1 r cid ↔ cidInIndex s r cid) := by
  induction pending with
  | nil =>
      intro s acc hf hacc
      exact ⟨hacc, hf, fun r => Iff.rfl⟩
  | cons j rest ih =>
      intro s acc hf hacc
      by_cases hj : j = cid
      · subst hj
        have hsend : sendToClient s j = (s, false) := sendToClient_of_nonopen hf hrs
        have hstep : foldSend s (j :: rest) acc = foldSend s rest acc := by
          simp [foldSend, hsend]
        rw [hstep]
        exact ih s acc hf hacc
      · have hcj : cid ≠ j := fun hx => hj hx.symm
        cases hs : sendToClient s j with
        | mk s₁ d =>
            have hstep : foldSend s (j :: rest) acc =
                foldSend s₁ rest (if d then acc ++ [j] else acc) := by
              simp [foldSend, hs]
            have hcases : s₁ = s ∨ s₁ = handleDisconnection s j := by
              cases hfj : findClient s.clients j with
              | none =>
                  have heq := sendToClient_of_absent hfj
                  rw [hs] at heq
                  injection heq with ha _
                  exact Or.inl ha
              | some cj =>
                  by_cases h1 : cj.readyState = wsOPEN
                  · cases h2 : cj.sendFails with
                    | false =>
                        have heq := sendToClient_of_ok hfj h1 h2
                        rw [hs] at heq
                        injection heq with ha _
                        exact Or.inl ha
                    | true =>
                        have heq := sendToClient_of_fail hfj h1 h2
                        rw [hs] at heq
                        injection heq with ha _
                        exact Or.inr ha
                  · have heq := sendToClient_of_nonopen hfj h1
                    rw [hs] at heq
                    injection heq with ha _
                    exact Or.inl ha
            have hf₁ : findClient s₁.clients cid = some c := by
              rcases hcases with h | h
              · rw [h]
                exact hf
              · rw [h, findClient_handleDisconnection, if_neg hcj]
                exact hf
            have hidx : ∀ r, cidInIndex s₁ r cid ↔ cidInIndex s r cid := by
              intro r
              rcases hcases with h | h
              · rw [h]
              · rw [h]
                exact cidInIndex_handleDisconnection_ne r hcj
            have hacc₁ : cid ∉ (if d then acc ++ [j] else acc) := by
              cases d
              · simpa using hacc
              · simp only [if_true]
                intro hm
                rcases List.mem_append.mp hm with hm₁ | hm₂
                · exact hacc hm₁
                · rw [List.mem_singleton] at hm₂
                  exact hcj hm₂
            obtain ⟨q1, q2, q3⟩ := ih s₁ (if d then acc ++ [j] else acc) hf₁ hacc₁
            rw [hstep]
            exact ⟨q1, q2, fun r => (q3 r).trans (hidx r)⟩

/-- C10: a `sendToClient` to an id absent from the registry, or whose
socket is not OPEN, is a silent no-op — state unchanged and nothing
delivered; consequently a broadcast never delivers to a registered
subscriber in a non-OPEN state, yet leaves its registry record and its
index memberships exactly as they were (no disconnect cleanup). -/
theorem c10_send_noop_non_open (s : ServerState) (cid : String) :
    (findClient s.clients cid = none → sendToClient s cid = (s, false))
    ∧ (∀ c, findClient s.clients cid = some c → c.readyState ≠ wsOPEN →
        sendToClient s cid = (s, false)
        ∧ ∀ rid, cid ∉ (broadcastMetadataUpdate s rid).2
            ∧ findClient (broadcastMetadataUpdate s rid).1.clients cid = some c
            ∧ ∀ r, (cidInIndex (broadcastMetadataUpdate s rid).1 r cid ↔ cidInIndex s r cid)) := by
  constructor
  · intro h
    exact sendToClient_of_absent h
  · intro c hf hrs
    refine ⟨sendToClient_of_nonopen hf hrs, ?_⟩
    intro rid
    have hb : broadcastMetadataUpdate s rid = (s, []) ∨
        ∃ subscribers, broadcastMetadataUpdate s rid = foldSend s subscribers [] := by
      unfold broadcastMetadataUpdate
      cases hl : alookup s.index rid with
      | none =>
          left
          rfl
      | some subscribers =>
          by_cases he : subscribers.isEmpty
          · left
            simp [he]
          · right
            exact ⟨subscribers, by simp [he]⟩
    rcases hb with hb | ⟨subscribers, hb⟩
    · rw [hb]
      exact ⟨by simp, hf, fun r => Iff.rfl⟩
    · rw [hb]
      exact foldSend_skip_nonopen hrs subscribers s [] hf (by simp)

/-- Witness for C10: at `sC10`, the CLOSED subscriber `"X"` is silently
skipped by the broadcast and keeps its registry entry and index
membership; a send to the unknown id `"Z"` is a no-op. -/
theorem c10_witness :
    sendToClient sC10 "Z" = (sC10, false)
    ∧ sendToClient sC10 "X" = (sC10, false)
    ∧ "X" ∉ (broadcastMetadataUpdate sC10 "r").2
    ∧ findClient (broadcastMetadataUpdate sC10 "r").1.clients "X" =
        some ⟨"X", 3, false, ["r"], 0⟩
    ∧ ∀ r, (cidInIndex (broadcastMetadataUpdate sC10 "r").1 r "X" ↔ cidInIndex sC10 r "X") := by
  have h := (c10_send_noop_non_open sC10 "X").2 ⟨"X", 3, false, ["r"], 0⟩ (by decide) (by decide)
  exact ⟨(c10_send_noop_non_open sC10 "Z").1 (by decide), h.1, (h.2 "r").1, (h.2 "r").2.1,
    (h.2 "r").2.2⟩

/-! ## Claim C7 -/

/-- C7: a user-initiated `disconnect()` closes the socket with the
normal-closure code 1000, clears the pending queue, cancels both the
heartbeat and the pong-timeout timers, and the resulting close event
does not trigger reconnection; in general the close handler invokes
`reconnect()` only for close codes other than 1000. -/
theorem c7_disconnect_normal_closure (t : Transport) (w : Nat) (h : t.ws = some w) :
    (Transport.disconnect t).closeCodes = t.closeCodes ++ [1000]
    ∧ (Transport.disconnect t).messageQueue = []
    ∧ (Transport.disconnect t).heartbeatOn = false
    ∧ (Transport.disconnect t).pongTimerOn = false
    ∧ (Transport.onClose (Transport.disconnect t) 1000).2 = false
    ∧ ∀ (t' : Transport) (code : Nat), (Transport.onClose t' code).2 = true → code ≠ 1000 := by
  refine ⟨?_, ?_, ?_, ?_, ?_, ?_⟩
  · simp [Transport.disconnect, h]
  · simp [Transport.disconnect, h]
  · simp [Transport.disconnect, h]
  · simp [Transport.disconnect, h]
  · simp [Transport.onClose]
  · intro t' code hc
    intro hcode
    subst hcode
    simp [Transport.onClose] at hc

/-- Witness for C7 at the concrete open transport `t0open`. -/
theorem c7_witness :
    (Transport.disconnect t0open).closeCodes = t0open.closeCodes ++ [1000]
    ∧ (Transport.disconnect t0open).messageQueue = []
    ∧ (Transport.disconnect t0open).heartbeatOn = false
    ∧ (Transport.disconnect t0open).pongTimerOn = false
    ∧ (Transport.onClose (Transport.disconnect t0open) 1000).2 = false
    ∧ ∀ (t' : Transport) (code : Nat), (Transport.onClose t' code).2 = true → code ≠ 1000 :=
  c7_disconnect_normal_closure t0open wsOPEN rfl

/-! ## Claim C8 -/

theorem flushSplit_all_ok (ok : WireMsg → Bool) (q : List WireMsg)
    (h : ∀ m ∈ q, ok m = true) : flushSplit ok q = (q, []) := by
  induction q with
  | nil => rfl
  | cons m rest ih =>
      simp [flushSplit, h m (List.mem_cons_self m rest),
        ih (fun x hx => h x (List.mem_cons_of_mem _ hx))]

theorem flushSplit_fail (ok : WireMsg → Bool) (q1 : List WireMsg) (m : WireMsg)
    (q2 : List WireMsg) (h1 : ∀ x ∈ q1, ok x = true) (hm : ok m = false) :
    flushSplit ok (q1 ++ m :: q2) = (q1, m :: q2) := by
  induction q1 with
  | nil => simp [flushSplit, hm]
  | cons a rest ih =>
      simp [flushSplit, h1 a (List.mem_cons_self a rest),
        ih (fun x hx => h1 x (List.mem_cons_of_mem _ hx))]

/-- C8: on entering OPEN the transport resets the reconnect-attempt
counter to 0, clears the reconnecting flag, starts the heartbeat, and
flushes the pending queue in FIFO order: if every send succeeds the
whole queue is written in order and emptied; if a send fails, exactly
the successful prefix was written, the failed message is back at the
front of the queue and the unflushed suffix keeps its order. -/
theorem c8_open_resets_and_flushes_fifo (ok : WireMsg → Bool) (t : Transport) :
    (Transport.onOpen ok t).reconnectAttempts = 0
    ∧ (Transport.onOpen ok t).isReconnecting = false
    ∧ (Transport.onOpen ok t).heartbeatOn = true
    ∧ ((∀ m ∈ t.messageQueue, ok m = true) →
        (Transport.onOpen ok t).sent = t.sent ++ t.messageQueue
        ∧ (Transport.onOpen ok t).messageQueue = [])
    ∧ (∀ q1 m q2, t.messageQueue = q1 ++ m :: q2 → (∀ x ∈ q1, ok x = true) → ok m = false →
        (Transport.onOpen ok t).sent = t.sent ++ q1
        ∧ (Transport.onOpen ok t).messageQueue = m :: q2) := by
  refine ⟨rfl, rfl, rfl, ?_, ?_⟩
  · intro hall
    have hfs := flushSplit_all_ok ok t.messageQueue hall
    constructor
    · show t.sent ++ (flushSplit ok t.messageQueue).1 = _
      rw [hfs]
    · show (flushSplit ok t.messageQueue).2 = []
      rw [hfs]
  · intro q1 m q2 hq h1 hm
    have hfs := flushSplit_fail ok q1 m q2 h1 hm
    constructor
    · show t.sent ++ (flushSplit ok t.messageQueue).1 = _
      rw [hq, hfs]
    · show (flushSplit ok t.messageQueue).2 = _
      rw [hq, hfs]

/-- Witness for C8: three queued messages, the middle send fails — the
first message was written, the failed one is back at the front. -/
theorem c8_witness :
    (Transport.onOpen ok8 t8).reconnectAttempts = 0
    ∧ (Transport.onOpen ok8 t8).heartbeatOn = true
    ∧ (Transport.onOpen ok8 t8).sent = t8.sent ++ [WireMsg.subMsg "a"]
    ∧ (Transport.onOpen ok8 t8).messageQueue = [WireMsg.subMsg "b", WireMsg.subMsg "c"] := by
  have h := c8_open_resets_and_flushes_fifo ok8 t8
  have hfifo := h.2.2.2.2 [WireMsg.subMsg "a"] (WireMsg.subMsg "b") [WireMsg.subMsg "c"]
    (by decide) (by decide) (by decide)
  exact ⟨h.1, h.2.2.1, hfifo.1, hfifo.2⟩

/-! ## Claim C6 -/

/-- C6 (divergence witness): starting from a dropped connection with a
fresh attempt counter, when every `connect()` attempt fails the
transport performs exactly ONE reconnection attempt (after the correct
first backoff delay of 1000 ms) and then stalls: `isReconnecting` stays
`true`, so the recursive `reconnect()` call inside the `catch` block
returns immediately, no further delays are waited, the fatal
`Failed to reconnect after 5 attempts` error is never emitted, and any
later close event cannot schedule a reconnection either.  This holds
for every recursion budget `fuel`, i.e. the real unbounded recursion
behaves this way. -/
theorem c6_reconnect_stalls (fuel : Nat) :
    Transport.reconnect (fun _ => false) (fun _ => true) (fuel + 2) t6start =
      { t6start with isReconnecting := true, reconnectAttempts := 1, delays := [1000] }
    ∧ (Transport.reconnect (fun _ => false) (fun _ => true) (fuel + 2) t6start).fatalErrors = 0
    ∧ ∀ code : Nat,
        (Transport.onClose
          (Transport.reconnect (fun _ => false) (fun _ => true) (fuel + 2) t6start) code).2 =
          false := by
  have hstuck : Transport.reconnect (fun _ => false) (fun _ => true) (fuel + 1)
      { t6start with isReconnecting := true, reconnectAttempts := 1, delays := [1000] } =
      { t6start with isReconnecting := true, reconnectAttempts := 1, delays := [1000] } := by
    simp [Transport.reconnect]
  have hmain : Transport.reconnect (fun _ => false) (fun _ => true) (fuel + 2) t6start =
      { t6start with isReconnecting := true, reconnectAttempts := 1, delays := [1000] } := by
    show Transport.reconnect (fun _ => false) (fun _ => true) ((fuel + 1) + 1) t6start = _
    rw [Transport.reconnect]
    simp only [t6start, t0open, maxReconnectAttempts, reconnectDelayBase, reconnectDelayCap]
    norm_num
    convert hstuck using 2
  refine ⟨hmain, ?_, ?_⟩
  · rw [hmain]
    rfl
  · intro code
    rw [hmain]
    simp [Transport.onClose]

/-- Witness for C6 at the concrete recursion budget 5 (= 3 + 2). -/
theorem c6_witness :
    Transport.reconnect (fun _ => false) (fun _ => true) 5 t6start =
      { t6start with isReconnecting := true, reconnectAttempts := 1, delays := [1000] }
    ∧ (Transport.reconnect (fun _ => false) (fun _ => true) 5 t6start).fatalErrors = 0
    ∧ ∀ code : Nat,
        (Transport.onClose
          (Transport.reconnect (fun _ => false) (fun _ => true) 5 t6start) code).2 = false :=
  c6_reconnect_stalls 3

/-! ## Claim C1 -/

/-- C1 (divergence witness, Scenario B): a client subscribed to three
resourceIds over an open connection sends the three subscribe messages
once; after the connection drops abnormally (code 1006) and the
automatic reconnection re-enters OPEN, the subscription set still holds
the three resourceIds, yet NOT ONE wire message is sent after the drop
— in particular zero `subscribe` messages are re-sent, because the
`connected` handler of the client only re-emits the event and no
resubscription logic exists. -/
theorem c1_no_resubscription_on_reconnect :
    c1Subscribed.subs = ["r1", "r2", "r3"]
    ∧ c1Subscribed.transport.sent =
        [WireMsg.subMsg "r1", WireMsg.subMsg "r2", WireMsg.subMsg "r3"]
    ∧ c1Final.subs = ["r1", "r2", "r3"]
    ∧ Transport.isConnected c1Final.transport = true
    ∧ c1SentAfterReconnect = []
    ∧ countMsg (WireMsg.subMsg "r1") c1SentAfterReconnect = 0 := by
  decide

/-! ## Claim C4 -/

/-- C4 counterexample: registering the SAME callback twice for `"r"`
(two `registerInterest` calls, `N = 2`) and invoking the two matching
release closures sends one `subscribe` but TWO `unsubscribe` messages:
the second release finds the captured set already empty and repeats the
1→0 transition.  The claim's "exactly one unsubscribe" fails. -/
theorem c4_counterexample :
    (prelAll (psubAll p0open "r" [0, 0]) "r" [0, 0]).sent =
      [WireMsg.subMsg "r", WireMsg.unsubMsg "r", WireMsg.unsubMsg "r"]
    ∧ countMsg (WireMsg.unsubMsg "r") (prelAll (psubAll p0open "r" [0, 0]) "r" [0, 0]).sent = 2
    ∧ countMsg (WireMsg.subMsg "r") (psubAll p0open "r" [0, 0]).sent = 1 := by
  decide

theorem filter_ne_eq_erase (l : List Nat) (x : Nat) (h : l.Nodup) :
    l.filter (fun y => y ≠ x) = l.erase x := by
  induction l with
  | nil => rfl
  | cons a as ih =>
      by_cases hax : a = x
      · subst hax
        rw [List.erase_cons_head]
        have hnotin : a ∉ as := (List.nodup_cons.mp h).1
        rw [List.filter_cons_of_neg (by simp)]
        exact List.filter_eq_self.mpr (fun y hy => by
          simp only [ne_eq, decide_eq_true_eq]
          intro hyx
          exact hnotin (hyx ▸ hy))
      · rw [List.filter_cons_of_pos (by simp [hax]),
          List.erase_cons_tail (by simpa using hax), ih (List.nodup_cons.mp h).2]

theorem psubAll_aux (rid : String) (cbs : List Nat) :
    ∀ (p : PState) (acc : List Nat),
      alookup p.subsMap rid = some acc → (acc ++ cbs).Nodup →
      (psubAll p rid cbs).sent = p.sent
      ∧ (psubAll p rid cbs).wsOpen = p.wsOpen
      ∧ alookup (psubAll p rid cbs).subsMap rid = some (acc ++ cbs) := by
  induction cbs with
  | nil =>
      intro p acc hl _
      refine ⟨rfl, rfl, ?_⟩
      simpa using hl
  | cons cb rest ih =>
      intro p acc hl hnd
      have hnotin : cb ∉ acc := by
        obtain ⟨_, _, hdisj⟩ := List.nodup_append.mp hnd
        intro hin
        exact hdisj hin (List.mem_cons_self cb rest)
      have hstep : psub p rid cb =
          { p with subsMap := aset p.subsMap rid (acc ++ [cb]) } := by
        unfold psub
        rw [hl]
        simp [hnotin]
      have hl' : alookup (aset p.subsMap rid (acc ++ [cb])) rid = some (acc ++ [cb]) :=
        alookup_aset_self _ _ _
      have hnd' : ((acc ++ [cb]) ++ rest).Nodup := by
        rw [List.append_assoc, List.singleton_append]
        exact hnd
      obtain ⟨q1, q2, q3⟩ := ih { p with subsMap := aset p.subsMap rid (acc ++ [cb]) }
        (acc ++ [cb]) hl' hnd'
      simp only [psubAll]
      rw [hstep]
      refine ⟨q1, q2, ?_⟩
      rw [q3, List.append_assoc, List.singleton_append]

theorem psubAll_from_none {rid : String} {cbs : List Nat} {p : PState}
    (hnone : alookup p.subsMap rid = none) (hne : cbs ≠ []) (hnd : cbs.Nodup) :
    (psubAll p rid cbs).sent = (if p.wsOpen then p.sent ++ [WireMsg.subMsg rid] else p.sent)
    ∧ (psubAll p rid cbs).wsOpen = p.wsOpen
    ∧ alookup (psubAll p rid cbs).subsMap rid = some cbs := by
  cases cbs with
  | nil => exact absurd rfl hne
  | cons cb rest =>
      have hstep : psub p rid cb =
          { subsMap := aset p.subsMap rid [cb]
            wsOpen := p.wsOpen
            sent := if p.wsOpen then p.sent ++ [WireMsg.subMsg rid] else p.sent } := by
        unfold psub
        rw [hnone]
      have hl' : alookup (aset p.subsMap rid [cb]) rid = some [cb] :=
        alookup_aset_self _ _ _
      have hnd' : ([cb] ++ rest).Nodup := by
        rw [List.singleton_append]
        exact hnd
      obtain ⟨q1, q2, q3⟩ := psubAll_aux rid rest
        { subsMap := aset p.subsMap rid [cb]
          wsOpen := p.wsOpen
          sent := if p.wsOpen then p.sent ++ [WireMsg.subMsg rid] else p.sent } [cb] hl' hnd'
      simp only [psubAll]
      rw [hstep]
      refine ⟨q1, q2, ?_⟩
      rw [q3, List.singleton_append]

theorem prelAll_release (rid : String) (rs : List Nat) :
    ∀ (p : PState) (cur : List Nat),
      alookup p.subsMap rid = some cur → cur.Nodup → rs.Perm cur → rs ≠ [] →
      p.wsOpen = true →
      (prelAll p rid rs).sent = p.sent ++ [WireMsg.unsubMsg rid]
      ∧ alookup (prelAll p rid rs).subsMap rid = none := by
  induction rs with
  | nil => intro p cur _ _ _ hne _; exact absurd rfl hne
  | cons cb rest ih =>
      intro p cur hl hnd hperm _ hws
      have hcb : cb ∈ cur := hperm.mem_iff.mp (List.mem_cons_self cb rest)
      have hfe : cur.filter (fun x => x ≠ cb) = cur.erase cb := filter_ne_eq_erase cur cb hnd
      have hrestperm : rest.Perm (cur.erase cb) := by
        have h1 : ((cb :: rest).erase cb).Perm (cur.erase cb) := hperm.erase cb
        rwa [List.erase_cons_head] at h1
      by_cases he : cur.filter (fun x => x ≠ cb) = []
      · have hrest : rest = [] := by
          apply List.Perm.eq_nil
          rw [← hfe, he] at hrestperm
          exact hrestperm
        have hstep : prel p rid cb =
            { subsMap := adelete p.subsMap rid
              wsOpen := p.wsOpen
              sent := p.sent ++ [WireMsg.unsubMsg rid] } := by
          unfold prel
          rw [hl]
          show (if cur.filter (fun x => x ≠ cb) = [] then _ else _) = _
          rw [if_pos he, hws]
          simp
        simp only [prelAll]
        rw [hrest]
        simp only [prelAll]
        rw [hstep]
        constructor
        · rfl
        · exact alookup_adelete_self _ _
      · have hstep : prel p rid cb =
            { p with subsMap := aset p.subsMap rid (cur.filter (fun x => x ≠ cb)) } := by
          unfold prel
          rw [hl]
          show (if cur.filter (fun x => x ≠ cb) = [] then _ else _) = _
          rw [if_neg he]
        have hl' : alookup (aset p.subsMap rid (cur.filter (fun x => x ≠ cb))) rid =
            some (cur.filter (fun x => x ≠ cb)) := alookup_aset_self _ _ _
        have hnd' : (cur.filter (fun x => x ≠ cb)).Nodup := List.Nodup.filter _ hnd
        have hperm' : rest.Perm (cur.filter (fun x => x ≠ cb)) := by
          rw [hfe]
          exact hrestperm
        have hne' : rest ≠ [] := by
          intro hnil
          rw [hnil] at hperm'
          exact he (List.Perm.eq_nil hperm'.symm)
        simp only [prelAll]
        rw [hstep]
        exact ih { p with subsMap := aset p.subsMap rid (cur.filter (fun x => x ≠ cb)) }
          (cur.filter (fun x => x ≠ cb)) hl' hnd' hperm' hne' hws

/-- C4 (amended): provided the WebSocket is open and the `N ≥ 1`
registered callbacks are pairwise distinct, a sequence of N
`registerInterest` calls for a resourceId sends exactly one `subscribe`
message (on the 0→1 transition), and the N matching release calls — in
any order — send exactly one `unsubscribe` message (on the 1→0
transition), after which the registry entry is gone. -/
theorem c4_refcount_dedup (p : PState) (rid : String) (cbs rs : List Nat)
    (hnd : cbs.Nodup) (hne : cbs ≠ []) (hperm : rs.Perm cbs)
    (hnone : alookup p.subsMap rid = none) (hws : p.wsOpen = true) :
    (psubAll p rid cbs).sent = p.sent ++ [WireMsg.subMsg rid]
    ∧ countMsg (WireMsg.subMsg rid) (psubAll p rid cbs).sent =
        countMsg (WireMsg.subMsg rid) p.sent + 1
    ∧ (prelAll (psubAll p rid cbs) rid rs).sent =
        p.sent ++ [WireMsg.subMsg rid] ++ [WireMsg.unsubMsg rid]
    ∧ countMsg (WireMsg.unsubMsg rid) (prelAll (psubAll p rid cbs) rid rs).sent =
        countMsg (WireMsg.unsubMsg rid) p.sent + 1
    ∧ countMsg (WireMsg.subMsg rid) (prelAll (psubAll p rid cbs) rid rs).sent =
        countMsg (WireMsg.subMsg rid) p.sent + 1
    ∧ alookup (prelAll (psubAll p rid cbs) rid rs).subsMap rid = none := by
  obtain ⟨q1, q2, q3⟩ := psubAll_from_none hnone hne hnd
  rw [hws, if_pos rfl] at q1
  have hrsne : rs ≠ [] := by
    intro hnil
    rw [hnil] at hperm
    exact hne (List.Perm.eq_nil hperm.symm)
  have hws' : (psubAll p rid cbs).wsOpen = true := by rw [q2, hws]
  obtain ⟨r1, r2⟩ := prelAll_release rid rs (psubAll p rid cbs) cbs q3 hnd hperm hrsne hws'
  rw [q1] at r1
  refine ⟨q1, ?_, r1, ?_, ?_, r2⟩
  · rw [q1, countMsg_snoc]
    simp
  · rw [r1, countMsg_append, countMsg_snoc]
    simp [countMsg]
  · rw [r1, countMsg_append, countMsg_snoc]
    simp [countMsg]

/-- Witness for C4 (amended): three distinct callbacks registered for
`"r"` over an open socket, released in a different order. -/
theorem c4_witness :
    (psubAll p0open "r" [0, 1, 2]).sent = p0open.sent ++ [WireMsg.subMsg "r"]
    ∧ countMsg (WireMsg.subMsg "r") (psubAll p0open "r" [0, 1, 2]).sent =
        countMsg (WireMsg.subMsg "r") p0open.sent + 1
    ∧ (prelAll (psubAll p0open "r" [0, 1, 2]) "r" [1, 0, 2]).sent =
        p0open.sent ++ [WireMsg.subMsg "r"] ++ [WireMsg.unsubMsg "r"]
    ∧ countMsg (WireMsg.unsubMsg "r") (prelAll (psubAll p0open "r" [0, 1, 2]) "r" [1, 0, 2]).sent =
        countMsg (WireMsg.unsubMsg "r") p0open.sent + 1
    ∧ countMsg (WireMsg.subMsg "r") (prelAll (psubAll p0open "r" [0, 1, 2]) "r" [1, 0, 2]).sent =
        countMsg (WireMsg.subMsg "r") p0open.sent + 1
    ∧ alookup (prelAll (psubAll p0open "r" [0, 1, 2]) "r" [1, 0, 2]).subsMap "r" = none :=
  c4_refcount_dedup p0open "r" [0, 1, 2] [1, 0, 2] (by decide) (by decide) (by decide)
    (by decide) (by decide)

/-! ## Claim C5 -/

/-- C5 counterexample: an update for `"r"` with a full payload reaches
two registered callbacks; callback 0 throws.  The dispatch loop aborts:
only callback 0 ran (the exception was caught by the outer handler),
and callback 1 — a remaining callback for that resourceId — was never
invoked, although the claim requires it to be. -/
theorem c5_counterexample :
    (dispatchEvent (fun cb => cb = 0) ⟨[], [], 0⟩ "r" (some 7) [0, 1]).invoked =
      [(0, some 7)]
    ∧ (1 : Nat) ∉
        ((dispatchEvent (fun cb => cb = 0) ⟨[], [], 0⟩ "r" (some 7) [0, 1]).invoked.map
          Prod.fst)
    ∧ (dispatchEvent (fun cb => cb = 0) ⟨[], [], 0⟩ "r" (some 7) [0, 1]).caught = 1 := by
  decide

theorem runCbs_obs (throws : Nat → Bool) (obs : Option Nat) (cbs : List Nat) :
    ∀ pr ∈ (runCbs throws obs cbs).1, pr.2 = obs := by
  induction cbs with
  | nil => intro pr h; simp [runCbs] at h
  | cons cb rest ih =>
      intro pr h
      by_cases ht : throws cb
      · simp [runCbs, ht] at h
        rw [h]
      · simp only [runCbs, ht, if_false] at h
        rcases List.mem_cons.mp h with heq | hmem
        · rw [heq]
        · exact ih pr hmem

theorem runCbs_all_ok (throws : Nat → Bool) (obs : Option Nat) (cbs : List Nat)
    (h : ∀ cb ∈ cbs, throws cb = false) :
    runCbs throws obs cbs = (cbs.map (fun cb => (cb, obs)), false) := by
  induction cbs with
  | nil => rfl
  | cons cb rest ih =>
      have hcb : throws cb = false := h cb (List.mem_cons_self cb rest)
      simp [runCbs, hcb, ih (fun x hx => h x (List.mem_cons_of_mem _ hx))]

theorem runCbs_aborts (throws : Nat → Bool) (obs : Option Nat) (pre : List Nat) (tcb : Nat)
    (post : List Nat) (h1 : ∀ x ∈ pre, throws x = false) (ht : throws tcb = true) :
    runCbs throws obs (pre ++ tcb :: post) = (pre.map (fun cb => (cb, obs)) ++ [(tcb, obs)], true) := by
  induction pre with
  | nil => simp [runCbs, ht]
  | cons a rest ih =>
      have ha : throws a = false := h1 a (List.mem_cons_self a rest)
      simp [runCbs, ha, ih (fun x hx => h1 x (List.mem_cons_of_mem _ hx))]

/-- C5 (amended): for an update event carrying a full payload, dispatch
writes the cache for that resourceId first, so every callback that runs
observes the new value; when no callback throws, all of them run in
order and nothing is caught; but when one throws, the loop ABORTS — the
throwing callback is the last one to run, the remaining ones are
skipped, and the exception is caught by the surrounding handler rather
than crashing the receiver. -/
theorem c5_dispatch_cache_first_abort_on_throw (throws : Nat → Bool) (s : DState)
    (rid : String) (m : Nat) (cbs : List Nat) :
    alookup (dispatchEvent throws s rid (some m) cbs).cache rid = some m
    ∧ (dispatchEvent throws s rid (some m) cbs).invoked =
        s.invoked ++ (runCbs throws (some m) cbs).1
    ∧ (∀ pr ∈ (runCbs throws (some m) cbs).1, pr.2 = some m)
    ∧ ((∀ cb ∈ cbs, throws cb = false) →
        (runCbs throws (some m) cbs).1.map Prod.fst = cbs
        ∧ (dispatchEvent throws s rid (some m) cbs).caught = s.caught)
    ∧ (∀ pre tcb post, cbs = pre ++ tcb :: post → (∀ x ∈ pre, throws x = false) →
        throws tcb = true →
        (runCbs throws (some m) cbs).1.map Prod.fst = pre ++ [tcb]
        ∧ (dispatchEvent throws s rid (some m) cbs).caught = s.caught + 1) := by
  have hobs : alookup (aset s.cache rid m) rid = some m := alookup_aset_self _ _ _
  have hdef : dispatchEvent throws s rid (some m) cbs =
      { cache := aset s.cache rid m
        invoked := s.invoked ++ (runCbs throws (some m) cbs).1
        caught := s.caught + (if (runCbs throws (some m) cbs).2 then 1 else 0) } := by
    show ({ cache := aset s.cache rid m
            invoked := s.invoked ++ (runCbs throws (alookup (aset s.cache rid m) rid) cbs).1
            caught := s.caught +
              (if (runCbs throws (alookup (aset s.cache rid m) rid) cbs).2 then 1 else 0) } :
          DState) = _
    rw [hobs]
  refine ⟨?_, ?_, runCbs_obs throws (some m) cbs, ?_, ?_⟩
  · rw [hdef]
    exact hobs
  · rw [hdef]
  · intro hall
    have hr := runCbs_all_ok throws (some m) cbs hall
    constructor
    · rw [hr]
      show List.map Prod.fst (List.map (fun cb => (cb, some m)) cbs) = cbs
      rw [List.map_map,
        show (Prod.fst ∘ fun cb : Nat => (cb, some m)) = id from rfl, List.map_id]
    · rw [hdef, hr]
      simp
  · intro pre tcb post hq h1 ht
    subst hq
    have hr := runCbs_aborts throws (some m) pre tcb post h1 ht
    constructor
    · rw [hr]
      show List.map Prod.fst (List.map (fun cb => (cb, some m)) pre ++ [(tcb, some m)]) =
        pre ++ [tcb]
      rw [List.map_append, List.map_map,
        show (Prod.fst ∘ fun cb : Nat => (cb, some m)) = id from rfl, List.map_id]
      rfl
    · rw [hdef, hr]
      simp

/-- Witness for C5 (amended): callbacks `[3, 5]` with callback 5
throwing; callback 3 runs (observing the fresh cache value), the loop
aborts at 5, one exception is caught. -/
theorem c5_witness :
    alookup (dispatchEvent (fun cb => cb = 5) ⟨[], [], 0⟩ "r" (some 9) [3, 5]).cache "r" =
      some 9
    ∧ (runCbs (fun cb => cb = 5) (some 9) [3, 5]).1.map Prod.fst = [3] ++ [5]
    ∧ (dispatchEvent (fun cb => cb = 5) ⟨[], [], 0⟩ "r" (some 9) [3, 5]).caught =
        (⟨[], [], 0⟩ : DState).caught + 1
    ∧ (∀ pr ∈ (runCbs (fun cb => cb = 5) (some 9) [3, 5]).1, pr.2 = some 9) := by
  have h := c5_dispatch_cache_first_abort_on_throw (fun cb => cb = 5) ⟨[], [], 0⟩ "r" 9 [3, 5]
  have habort := h.2.2.2.2 [3] 5 [] (by decide) (by decide) (by decide)
  exact ⟨h.1, habort.1, habort.2, h.2.2.1⟩

end EAMP
